import Mathlib

/-
Verification of the circuit pool manager of Dark-Web-AI-Scout
(src/src/core/tor_manager.py), as a shallow embedding.

Modelling conventions:
  - Timestamps are naturals (seconds).  time.time() is read once per
    operation, through the clock field of the manager state; the clock is
    advanced between operations by tickClock.  time.time() readings are
    positive.
  - The stem controller, the Tor process and the network are external
    I/O.  The control channel is modelled by the success flags passed to
    the operations (a failed controller.new_circuit call raises
    stem.ControllerError in the source, which _create_circuit turns into
    None) and by the fresh-id counter next_id: circuit ids handed out by
    the controller are opaque and never repeat.
  - requests.Session objects are modelled by the proxy endpoint and the
    randomly drawn user agent; the constant browser-mimicking headers are
    elided.  The random user-agent draw is an oracle parameter ua.
  - The registry dict self.circuits is a list in insertion order with
    unique ids; dict lookup is first match by id.
-/

set_option maxHeartbeats 1000000

namespace DarkWebScout

/-- State of a Tor circuit (class CircuitState). -/
inductive CircuitState where
  | fresh
  | active
  | degraded
  | dead
deriving DecidableEq, Repr

/-- Rank of a circuit state along the lifecycle order fresh, active,
degraded, dead; used to state state-transition monotonicity. -/
def CircuitState.rank : CircuitState → Nat
  | CircuitState.fresh => 0
  | CircuitState.active => 1
  | CircuitState.degraded => 2
  | CircuitState.dead => 3

/-- A Tor circuit (the Circuit dataclass).  The informational entry_node
and exit_node metadata is elided. -/
structure Circuit where
  id : Nat
  state : CircuitState
  created_at : Nat
  request_count : Nat := 0
  last_used : Option Nat := none
deriving DecidableEq, Repr

/-- The age property of Circuit: seconds since creation at clock reading
now (time.time() - created_at; never negative for a monotone clock). -/
def Circuit.age (c : Circuit) (now : Nat) : Nat := now - c.created_at

/-- The is_healthy property of Circuit: not dead, at most 600 seconds old
and at most 100 requests served.  Both limits are hard-coded literals in
the source (600 with comment 10 minutes max, 100 with comment Max
requests per circuit). -/
def Circuit.is_healthy (c : Circuit) (now : Nat) : Bool :=
  if c.state = CircuitState.dead then false
  else if 600 < c.age now then false
  else if 100 < c.request_count then false
  else true

/-- An HTTP session bound to a circuit (requests.Session configured in
get_http_session): the Tor SOCKS proxy endpoint and the drawn user
agent. -/
structure Session where
  proxy : String
  user_agent : String
deriving DecidableEq, Repr

/-- Session construction in get_http_session: proxy through the local
SOCKS port, with the given user agent. -/
def mkSession (socks_port : Nat) (ua : String) : Session :=
  { proxy := "socks5h://127.0.0.1:" ++ toString socks_port, user_agent := ua }

/-- Python exceptions raised by the session helpers of the manager; the
source raises only the builtin RuntimeError there. -/
inductive PyError where
  | runtimeError (msg : String)
deriving DecidableEq, Repr

/-- The mutable state of class TorManager: configuration, circuit
registry, active circuit id list, session cache, plus the modelling
fields next_id (fresh controller ids) and clock (current time.time()
reading). -/
structure TorManager where
  socks_port : Nat := 9050
  max_circuits : Nat := 10
  circuit_lifetime : Nat := 600
  circuits : List Circuit := []
  active_circuits : List Nat := []
  session_cache : List (Nat × Session) := []
  next_id : Nat := 0
  clock : Nat := 1
deriving DecidableEq, Repr

/-- Registry lookup self.circuits[cid]: first entry with the id. -/
def lookupCircuit (l : List Circuit) (cid : Nat) : Option Circuit :=
  l.find? (fun c => decide (c.id = cid))

/-- Registry lookup on a manager state. -/
def findCircuit (s : TorManager) (cid : Nat) : Option Circuit :=
  lookupCircuit s.circuits cid

/-- In-place mutation of the circuit object stored under cid (ids are
unique in every reachable state). -/
def updateCircuit (s : TorManager) (cid : Nat) (g : Circuit → Circuit) : TorManager :=
  { s with circuits := s.circuits.map (fun c => if c.id = cid then g c else c) }

/-- TorManager.__init__ followed by the control-channel setup of start():
a manager with the given configuration and no circuits, first observed at
wall-clock time clock0. -/
def initManager (sp mx lt clock0 : Nat) : TorManager :=
  { socks_port := sp, max_circuits := mx, circuit_lifetime := lt,
    circuits := [], active_circuits := [], session_cache := [],
    next_id := 0, clock := clock0 }

/-- TorManager._create_circuit: ask the controller for a new circuit.
ok models whether the stem call succeeds.  On success the circuit gets a
fresh id, FRESH state, created_at = now, request_count 0 and no
last_used, and joins the registry and the active list; on
stem.ControllerError the state is unchanged and None is returned. -/
def createCircuit (ok : Bool) (s : TorManager) : Option Circuit × TorManager :=
  if ok then
    let c : Circuit := { id := s.next_id, state := CircuitState.fresh,
                         created_at := s.clock }
    (some c, { s with circuits := s.circuits ++ [c],
                      active_circuits := s.active_circuits ++ [s.next_id],
                      next_id := s.next_id + 1 })
  else (none, s)

/-- TorManager._initialize_circuits: create min(3, max_circuits) circuits,
the i-th attempt succeeding when oks i is true. -/
def initCircuits (oks : Nat → Bool) (s : TorManager) : TorManager :=
  (List.range (min 3 s.max_circuits)).foldl
    (fun st i => (createCircuit (oks i) st).2) s

/-- The treatment of one registry entry inside TorManager._cleanup_circuits:
the updated circuit, and whether its id goes on the dead_circuits list. -/
def cleanupCircuit (lifetime now : Nat) (c : Circuit) : Circuit × Bool :=
  if c.state = CircuitState.dead then (c, true)
  else if lifetime < c.age now then ({ c with state := CircuitState.dead }, true)
  else if 100 < c.request_count then ({ c with state := CircuitState.degraded }, false)
  else (c, false)

/-- TorManager._cleanup_circuits: mark expired circuits dead (expiry uses
the configured circuit_lifetime), mark overused circuits degraded
(threshold hard-coded to 100), then drop every collected dead id from the
active list (list.remove drops the first occurrence; active ids are
unique in every reachable state, so the circuit leaves the list). -/
def cleanupCircuits (s : TorManager) : TorManager :=
  let deadIds := ((s.circuits.map (cleanupCircuit s.circuit_lifetime s.clock)).filter
    (fun p => p.2)).map (fun p => p.1.id)
  { s with circuits := s.circuits.map (fun c => (cleanupCircuit s.circuit_lifetime s.clock c).1),
           active_circuits := deadIds.foldl List.erase s.active_circuits }

/-- TorManager.mark_circuit_dead: if the id is registered, set the
circuit's state to DEAD and drop the id from the active list; otherwise a
no-op. -/
def markCircuitDead (cid : Nat) (s : TorManager) : TorManager :=
  if s.circuits.any (fun c => decide (c.id = cid)) then
    let s1 := updateCircuit s cid (fun c => { c with state := CircuitState.dead })
    { s1 with active_circuits := s1.active_circuits.erase cid }
  else s

/-- The healthy-circuit scan of TorManager.get_circuit: the first active
circuit that is healthy and, when require_fresh is set, still unused.
Active ids always resolve in the registry in reachable states (a missing
id would raise KeyError in the source); unresolvable ids are skipped. -/
def scanHealthy (require_fresh : Bool) (s : TorManager) : Option Circuit :=
  s.active_circuits.findSome? (fun cid =>
    match findCircuit s cid with
    | none => none
    | some c =>
      if c.is_healthy s.clock && (!require_fresh || c.request_count == 0)
      then some c else none)

/-- The sort key of the recycle fallback: last_used or 0 (an absent
last_used sorts as 0; a missing id would raise KeyError in the source and
is given key 0 here). -/
def recycleKey (s : TorManager) (cid : Nat) : Nat :=
  match findCircuit s cid with
  | none => 0
  | some c => c.last_used.getD 0

/-- Python min over a nonempty list with a key function: the first
element attaining the minimal key (later elements win only on strictly
smaller keys). -/
def pickMin (k : Nat → Nat) (x : Nat) (xs : List Nat) : Nat :=
  xs.foldl (fun best y => if k y < k best then y else best) x

/-- The recycle fallback at the end of TorManager.get_circuit: pick the
active circuit with minimal (last_used or 0), bump its request_count,
stamp last_used, and return it; None when the active list is empty. -/
def recycleOldest (s : TorManager) : Option Circuit × TorManager :=
  match s.active_circuits with
  | [] => (none, s)
  | x :: xs =>
    let oldest := pickMin (recycleKey s) x xs
    match findCircuit s oldest with
    | none => (none, s)
    | some c =>
      let c' := { c with request_count := c.request_count + 1,
                         last_used := some s.clock }
      (some c', updateCircuit s oldest (fun _ => c'))

/-- TorManager.get_circuit: run cleanup, scan for a healthy circuit (on
selection bump request_count, stamp last_used and set the state to
ACTIVE), else create a new circuit when below capacity (the new circuit
keeps its FRESH state and gets request_count 1), else recycle; ok models
the success of the creation attempt. -/
def getCircuit (require_fresh ok : Bool) (s0 : TorManager) :
    Option Circuit × TorManager :=
  let s := cleanupCircuits s0
  match scanHealthy require_fresh s with
  | some c =>
    let c' := { c with request_count := c.request_count + 1,
                       last_used := some s.clock,
                       state := CircuitState.active }
    (some c', updateCircuit s c.id (fun _ => c'))
  | none =>
    if s.active_circuits.length < s.max_circuits then
      match createCircuit ok s with
      | (some c, s1) =>
        let c' := { c with request_count := 1, last_used := some s1.clock }
        (some c', updateCircuit s1 c.id (fun _ => c'))
      | (none, _) => recycleOldest s
    else recycleOldest s

/-- Lookup in the session cache dict. -/
def sessionLookup (cache : List (Nat × Session)) (cid : Nat) : Option Session :=
  (cache.find? (fun p => decide (p.1 = cid))).map (fun p => p.2)

/-- The caching body of TorManager.get_http_session once a circuit is in
hand: reuse the session cached for the circuit id, otherwise build a new
one and cache it. -/
def sessionFor (c : Circuit) (ua : String) (s : TorManager) :
    Except PyError Session × TorManager :=
  match sessionLookup s.session_cache c.id with
  | some sess => (Except.ok sess, s)
  | none =>
    let sess := mkSession s.socks_port ua
    (Except.ok sess, { s with session_cache := s.session_cache ++ [(c.id, sess)] })

/-- TorManager.get_http_session: with no circuit supplied acquire one via
get_circuit, raising RuntimeError when none is available; then yield the
cached or freshly built session.  ok models circuit-creation success and
ua the random user-agent draw. -/
def getHttpSession (copt : Option Circuit) (ok : Bool) (ua : String)
    (s : TorManager) : Except PyError Session × TorManager :=
  match copt with
  | some c => sessionFor c ua s
  | none =>
    match getCircuit false ok s with
    | (some c, s1) => sessionFor c ua s1
    | (none, s1) => (Except.error (PyError.runtimeError "No available circuits"), s1)

/-- TorManager.rotate_all_circuits: mark every known circuit dead (over a
snapshot of the registry keys), clear the session cache, then recreate
the initial circuit set. -/
def rotateAllCircuits (oks : Nat → Bool) (s : TorManager) : TorManager :=
  let s1 := (s.circuits.map (fun c => c.id)).foldl
    (fun st cid => markCircuitDead cid st) s
  initCircuits oks { s1 with session_cache := [] }

/-- The snapshot returned by TorManager.get_stats. -/
structure TorStats where
  total_circuits : Nat
  active_circuits : Nat
  healthy_circuits : Nat
  sessions_cached : Nat
deriving DecidableEq, Repr

/-- TorManager.get_stats. -/
def getStats (s : TorManager) : TorStats :=
  { total_circuits := s.circuits.length,
    active_circuits := s.active_circuits.length,
    healthy_circuits := (s.circuits.filter (fun c => c.is_healthy s.clock)).length,
    sessions_cached := s.session_cache.length }

/-- TorManager.stop: clears the session cache (controller and process
teardown are external I/O). -/
def stopManager (s : TorManager) : TorManager := { s with session_cache := [] }

/-- Wall-clock advance between operations (time.time() is monotone). -/
def tickClock (dt : Nat) (s : TorManager) : TorManager :=
  { s with clock := s.clock + dt }

/-- One observable operation on the manager, including clock advances
between calls; creation outcomes and user-agent draws are oracle
parameters. -/
inductive Step : TorManager → TorManager → Prop where
  | tick (dt : Nat) (s : TorManager) : Step s (tickClock dt s)
  | acquire (rf ok : Bool) (s : TorManager) : Step s (getCircuit rf ok s).2
  | cleanup (s : TorManager) : Step s (cleanupCircuits s)
  | markDead (cid : Nat) (s : TorManager) : Step s (markCircuitDead cid s)
  | rotate (oks : Nat → Bool) (s : TorManager) : Step s (rotateAllCircuits oks s)
  | session (copt : Option Circuit) (ok : Bool) (ua : String) (s : TorManager) :
      Step s (getHttpSession copt ok ua s).2
  | stop (s : TorManager) : Step s (stopManager s)

/-- Manager states reachable from start() (channel setup plus initial
circuit creation) through any sequence of operations.  time.time()
readings are positive, hence 0 < clock0. -/
inductive Reachable : TorManager → Prop where
  | start (sp mx lt cl : Nat) (oks : Nat → Bool) (hcl : 0 < cl) :
      Reachable (initCircuits oks (initManager sp mx lt cl))
  | step {s s' : TorManager} : Reachable s → Step s s' → Reachable s'

/-! Basic facts about registry lookup. -/

/-! Derived state predicates and concrete example states used by the
claims below. -/

/-- Core invariant of the registry and active list, without the capacity
bound (which is only restored after the bulk creation loops). -/
structure Inv0 (s : TorManager) : Prop where
  activeSub : ∀ cid ∈ s.active_circuits, ∃ c, findCircuit s cid = some c
  activeSorted : s.active_circuits.Pairwise (· < ·)
  idsSorted : s.circuits.Pairwise (fun a b => a.id < b.id)
  idsLt : ∀ c ∈ s.circuits, c.id < s.next_id
  createdLe : ∀ c ∈ s.circuits, c.created_at ≤ s.clock
  idCreated : ∀ c1 ∈ s.circuits, ∀ c2 ∈ s.circuits, c1.id ≤ c2.id →
    c1.created_at ≤ c2.created_at
  degradedRc : ∀ c ∈ s.circuits, c.state = CircuitState.degraded →
    100 < c.request_count
  clockPos : 0 < s.clock
  lastUsedPos : ∀ c ∈ s.circuits, ∀ t, c.last_used = some t → 0 < t

/-- Full invariant of reachable manager states. -/
structure Inv (s : TorManager) extends Inv0 s : Prop where
  activeLen : s.active_circuits.length ≤ s.max_circuits

/-- Rank comparison between the circuit registered under an id in one
state and in another. -/
def CircuitsMono (s s' : TorManager) : Prop :=
  ∀ (cid : Nat) (c c' : Circuit), findCircuit s cid = some c →
    findCircuit s' cid = some c' → c.state.rank ≤ c'.state.rank

/-- Registered ids stay registered. -/
def CircuitsPres (s s' : TorManager) : Prop :=
  ∀ cid : Nat, (findCircuit s cid).isSome = true → (findCircuit s' cid).isSome = true

/-- The initial pool of Scenario A: start() with default configuration
and all three initial creations succeeding, at wall-clock time 1. -/
def wStart : TorManager := initCircuits (fun _ => true) (initManager 9050 10 600 1)

/-- The pool after one get_circuit call on the initial pool. -/
def wAfter : TorManager := (getCircuit false true wStart).2

/-- Manager started with circuit_lifetime configured to 300 seconds, then
399 seconds of wall-clock time pass. -/
def w300 : TorManager := initCircuits (fun _ => true) (initManager 9050 10 300 1)

def c2Mgr : TorManager := tickClock 399 w300

def c2Circ : Circuit :=
  { id := 0, state := CircuitState.fresh, created_at := 1, request_count := 0, last_used := none }

instance : DecidableEq (Except PyError Session) := fun x y =>
  match x, y with
  | Except.ok a, Except.ok b =>
    if h : a = b then isTrue (by rw [h]) else isFalse (fun hc => h (by injection hc))
  | Except.error a, Except.error b =>
    if h : a = b then isTrue (by rw [h]) else isFalse (fun hc => h (by injection hc))
  | Except.ok _, Except.error _ => isFalse (fun hc => Except.noConfusion hc)
  | Except.error _, Except.ok _ => isFalse (fun hc => Except.noConfusion hc)

/-- A freshly constructed manager whose three initial circuit creations
all failed: registry and active list are empty. -/
def c5Empty : TorManager := initManager 9050 10 600 1

/-- The circuit object handed to the caller by the first acquisition on
the initial pool. -/
def c7CircA : Circuit :=
  { id := 0, state := CircuitState.active, created_at := 1, request_count := 1, last_used := some 1 }

/-- Pool state after that acquisition followed by a get_http_session call
for the acquired circuit with user agent agentA (one cached session). -/
def c7S3 : TorManager := (getHttpSession (some c7CircA) true "agentA" wAfter).2

/-- The same pool after mark_circuit_dead on the bound circuit. -/
def c7S4 : TorManager := markCircuitDead 0 c7S3

def c7Sess : Session := mkSession 9050 "agentA"

def c7Dead : Circuit :=
  { id := 0, state := CircuitState.dead, created_at := 1, request_count := 1, last_used := some 1 }

/-- The circuit returned by the creation path of get_circuit on the empty
pool: state still FRESH though request_count is 1. -/
def c8C : Circuit :=
  { id := 0, state := CircuitState.fresh, created_at := 1, request_count := 1, last_used := some 1 }

def c8S' : TorManager := (getCircuit false true c5Empty).2

/-- The least-recently-used order of the spec: an absent last_used is
oldest, present timestamps compare numerically. -/
def lastUsedLE : Option Nat → Option Nat → Prop
  | none, _ => True
  | some _, none => False
  | some a, some b => a ≤ b

instance : (a b : Option Nat) → Decidable (lastUsedLE a b)
  | none, _ => isTrue trivial
  | some _, none => isFalse (fun hf => hf)
  | some x, some y => Nat.decLe x y

/-- A saturated single-circuit pool: started with max_circuits 1 and the
only circuit already used once. -/
def w1 : TorManager := initCircuits (fun _ => true) (initManager 9050 1 600 1)

def w1a : TorManager := (getCircuit false true w1).2

theorem lookupCircuit_some {l : List Circuit} {cid : Nat} {c : Circuit}
    (h : lookupCircuit l cid = some c) : c ∈ l ∧ c.id = cid := by
  unfold lookupCircuit at h
  refine ⟨List.mem_of_find?_eq_some h, ?_⟩
  have h2 := List.find?_some h
  simpa using h2

theorem lookupCircuit_map {g : Circuit → Circuit} (hg : ∀ c, (g c).id = c.id)
    (l : List Circuit) (cid : Nat) :
    lookupCircuit (l.map g) cid = (lookupCircuit l cid).map g := by
  unfold lookupCircuit
  rw [List.find?_map]
  have hp : ((fun c : Circuit => decide (c.id = cid)) ∘ g) =
      (fun c : Circuit => decide (c.id = cid)) := by
    funext c
    simp [Function.comp, hg]
  rw [hp]

theorem lookupCircuit_map_mem {l : List Circuit} {f : Circuit → Circuit}
    (hid : ∀ c ∈ l, (f c).id = c.id) (cid : Nat) :
    lookupCircuit (l.map f) cid = (lookupCircuit l cid).map f := by
  induction l with
  | nil => rfl
  | cons a t ih =>
    unfold lookupCircuit at *
    rw [List.map_cons, List.find?_cons, List.find?_cons,
      hid a (List.mem_cons_self _ _)]
    cases hd : decide (a.id = cid) with
    | true => rfl
    | false => exact ih (fun c hc => hid c (List.mem_cons_of_mem _ hc))

theorem lookupCircuit_append (l₁ l₂ : List Circuit) (cid : Nat) :
    lookupCircuit (l₁ ++ l₂) cid =
      (lookupCircuit l₁ cid).or (lookupCircuit l₂ cid) := by
  unfold lookupCircuit
  exact List.find?_append

theorem lookupCircuit_isSome_of_mem {l : List Circuit} {c : Circuit}
    (hc : c ∈ l) : (lookupCircuit l c.id).isSome := by
  induction l with
  | nil => cases hc
  | cons a t ih =>
    unfold lookupCircuit at *
    rw [List.find?_cons]
    cases hdec : decide (a.id = c.id) with
    | true => simp
    | false =>
      cases hc with
      | head => simp at hdec
      | tail _ hc' => exact ih hc'

/-- Two registry entries with the same id coincide when ids are strictly
increasing along the registry. -/
theorem mem_id_eq {l : List Circuit} (hs : l.Pairwise (fun a b => a.id < b.id))
    {c d : Circuit} (hc : c ∈ l) (hd : d ∈ l) (hid : c.id = d.id) : c = d := by
  induction l with
  | nil => cases hc
  | cons a t ih =>
    rw [List.pairwise_cons] at hs
    cases hc with
    | head =>
      cases hd with
      | head => rfl
      | tail _ hd' => exact absurd hid (Nat.ne_of_lt (hs.1 d hd'))
    | tail _ hc' =>
      cases hd with
      | head => exact absurd hid.symm (Nat.ne_of_lt (hs.1 c hc'))
      | tail _ hd' => exact ih hs.2 hc' hd'

theorem lookupCircuit_eq_of_mem {l : List Circuit}
    (hs : l.Pairwise (fun a b => a.id < b.id)) {c : Circuit} (hc : c ∈ l) :
    lookupCircuit l c.id = some c := by
  cases hf : lookupCircuit l c.id with
  | none =>
    exact absurd hf (by
      have := lookupCircuit_isSome_of_mem hc
      intro h; rw [h] at this; simp at this)
  | some d =>
    obtain ⟨hd, hid⟩ := lookupCircuit_some hf
    rw [mem_id_eq hs hc hd hid.symm]

theorem any_id_iff {l : List Circuit} {cid : Nat} :
    l.any (fun c => decide (c.id = cid)) = true ↔ ∃ c ∈ l, c.id = cid := by
  simp [List.any_eq_true]

/-! Facts about repeated list.remove (List.erase folded over a list of
ids), as performed by cleanup and rotation on the active list. -/

theorem foldl_erase_sublist (ds : List Nat) :
    ∀ l : List Nat, (ds.foldl List.erase l).Sublist l := by
  induction ds with
  | nil => intro l; exact List.Sublist.refl l
  | cons d t ih =>
    intro l
    exact (ih (l.erase d)).trans (List.erase_sublist d l)

theorem mem_foldl_erase {ds : List Nat} :
    ∀ {l : List Nat} {x : Nat}, l.Nodup → x ∈ ds.foldl List.erase l →
      x ∈ l ∧ x ∉ ds := by
  induction ds with
  | nil =>
    intro l x _ hx
    exact ⟨hx, by simp⟩
  | cons d t ih =>
    intro l x hn hx
    obtain ⟨h1, h2⟩ := ih (hn.erase d) hx
    rw [hn.mem_erase_iff] at h1
    refine ⟨h1.2, ?_⟩
    simp only [List.mem_cons, not_or]
    exact ⟨h1.1, h2⟩

theorem foldl_erase_eq_nil {ds l : List Nat} (hn : l.Nodup)
    (hall : ∀ x ∈ l, x ∈ ds) : ds.foldl List.erase l = [] := by
  rw [List.eq_nil_iff_forall_not_mem]
  intro a ha
  obtain ⟨h1, h2⟩ := mem_foldl_erase hn ha
  exact h2 (hall a h1)

/-! Facts about pickMin, the model of Python min with a key function. -/

theorem pickMin_mem (k : Nat → Nat) :
    ∀ (xs : List Nat) (x : Nat), pickMin k x xs ∈ x :: xs := by
  intro xs
  induction xs with
  | nil => intro x; simp [pickMin]
  | cons y t ih =>
    intro x
    show pickMin k (if k y < k x then y else x) t ∈ x :: y :: t
    by_cases h : k y < k x
    · rw [if_pos h]
      rcases List.mem_cons.mp (ih y) with h' | h'
      · rw [h']; exact List.mem_cons_of_mem _ (List.mem_cons_self _ _)
      · exact List.mem_cons_of_mem _ (List.mem_cons_of_mem _ h')
    · rw [if_neg h]
      rcases List.mem_cons.mp (ih x) with h' | h'
      · rw [h']; exact List.mem_cons_self _ _
      · exact List.mem_cons_of_mem _ (List.mem_cons_of_mem _ h')

theorem pickMin_le (k : Nat → Nat) :
    ∀ (xs : List Nat) (x : Nat), ∀ y ∈ x :: xs, k (pickMin k x xs) ≤ k y := by
  intro xs
  induction xs with
  | nil =>
    intro x y hy
    rcases List.mem_cons.mp hy with h | h
    · rw [h]; exact Nat.le_refl _
    · cases h
  | cons z t ih =>
    intro x y hy
    show k (pickMin k (if k z < k x then z else x) t) ≤ k y
    rcases List.mem_cons.mp hy with rfl | hy'
    · by_cases h : k z < k y
      · rw [if_pos h]
        exact Nat.le_of_lt (Nat.lt_of_le_of_lt (ih z z (List.mem_cons_self _ _)) h)
      · rw [if_neg h]
        exact ih y y (List.mem_cons_self _ _)
    · rcases List.mem_cons.mp hy' with rfl | hy''
      · by_cases h : k y < k x
        · rw [if_pos h]
          exact ih y y (List.mem_cons_self _ _)
        · rw [if_neg h]
          exact Nat.le_trans (ih x x (List.mem_cons_self _ _)) (Nat.le_of_not_lt h)
      · by_cases h : k z < k x
        · rw [if_pos h]
          exact ih z y (List.mem_cons_of_mem _ hy'')
        · rw [if_neg h]
          exact ih x y (List.mem_cons_of_mem _ hy'')

theorem pickMin_cons (k : Nat → Nat) (x y : Nat) (t : List Nat) :
    pickMin k x (y :: t) = pickMin k (if k y < k x then y else x) t := rfl

theorem pickMin_cases (k : Nat → Nat) :
    ∀ (xs : List Nat) (x : Nat), pickMin k x xs = x ∨
      (pickMin k x xs ∈ xs ∧ k (pickMin k x xs) < k x) := by
  intro xs
  induction xs with
  | nil => intro x; left; rfl
  | cons z t ih =>
    intro x
    rw [pickMin_cons]
    by_cases h : k z < k x
    · rw [if_pos h]
      rcases ih z with h1 | ⟨h1, h2⟩
      · right
        refine ⟨?_, ?_⟩
        · rw [h1]; exact List.mem_cons_self _ _
        · rw [h1]; exact h
      · right
        exact ⟨List.mem_cons_of_mem _ h1, Nat.lt_trans h2 h⟩
    · rw [if_neg h]
      rcases ih x with h1 | ⟨h1, h2⟩
      · left; exact h1
      · right; exact ⟨List.mem_cons_of_mem _ h1, h2⟩

/-- Python min keeps the first element among key ties: on a strictly
increasing list the chosen element is at most (as a value) any element
with the same key. -/
theorem pickMin_first (k : Nat → Nat) :
    ∀ (xs : List Nat) (x : Nat), (x :: xs).Pairwise (· < ·) →
      ∀ y ∈ x :: xs, k y = k (pickMin k x xs) → pickMin k x xs ≤ y := by
  intro xs
  induction xs with
  | nil =>
    intro x _ y hy _
    rcases List.mem_cons.mp hy with h | h
    · rw [h]; exact Nat.le_refl _
    · cases h
  | cons z t ih =>
    intro x hs y hy hky
    rw [List.pairwise_cons, List.pairwise_cons] at hs
    obtain ⟨h1, h2, h3⟩ := hs
    have hxz : x < z := h1 z (List.mem_cons_self _ _)
    have hxt : ∀ b ∈ t, x < b := fun b hb => h1 b (List.mem_cons_of_mem _ hb)
    rw [pickMin_cons] at hky ⊢
    by_cases h : k z < k x
    · rw [if_pos h] at hky ⊢
      have hs' : (z :: t).Pairwise (· < ·) := List.pairwise_cons.mpr ⟨h2, h3⟩
      rcases List.mem_cons.mp hy with rfl | hy'
      · -- y = x is excluded: the chosen key is at most k z < k x
        have hle : k (pickMin k z t) ≤ k z :=
          pickMin_le k t z z (List.mem_cons_self _ _)
        exact absurd (hky ▸ Nat.lt_of_le_of_lt hle h) (Nat.lt_irrefl _)
      · exact ih z hs' y hy' hky
    · rw [if_neg h] at hky ⊢
      have hs' : (x :: t).Pairwise (· < ·) := List.pairwise_cons.mpr ⟨hxt, h3⟩
      rcases List.mem_cons.mp hy with rfl | hy'
      · exact ih _ hs' _ (List.mem_cons_self _ _) hky
      · rcases List.mem_cons.mp hy' with rfl | hy''
        · -- y = z, the dropped element: the choice is x or strictly better
          rcases pickMin_cases k t x with he | ⟨hm, hlt⟩
          · rw [he]; exact Nat.le_of_lt hxz
          · exact absurd (hky ▸ Nat.lt_of_lt_of_le hlt (Nat.le_of_not_lt h))
              (Nat.lt_irrefl _)
        · exact ih x hs' y (List.mem_cons_of_mem _ hy'') hky

/-! Facts about the per-circuit cleanup step. -/

theorem cleanupCircuit_id (lt now : Nat) (c : Circuit) :
    (cleanupCircuit lt now c).1.id = c.id := by
  unfold cleanupCircuit
  split_ifs <;> rfl

theorem cleanupCircuit_created (lt now : Nat) (c : Circuit) :
    (cleanupCircuit lt now c).1.created_at = c.created_at := by
  unfold cleanupCircuit
  split_ifs <;> rfl

theorem cleanupCircuit_rc (lt now : Nat) (c : Circuit) :
    (cleanupCircuit lt now c).1.request_count = c.request_count := by
  unfold cleanupCircuit
  split_ifs <;> rfl

theorem cleanupCircuit_lu (lt now : Nat) (c : Circuit) :
    (cleanupCircuit lt now c).1.last_used = c.last_used := by
  unfold cleanupCircuit
  split_ifs <;> rfl

/-- Cleanup only moves a circuit's state forward in the lifecycle order. -/
theorem cleanupCircuit_rank (lt now : Nat) (c : Circuit) :
    c.state.rank ≤ (cleanupCircuit lt now c).1.state.rank := by
  unfold cleanupCircuit
  split_ifs with h1 h2 h3
  · exact Nat.le_refl _
  · cases c.state <;> simp [CircuitState.rank]
  · cases hc : c.state <;> simp_all [CircuitState.rank]
  · exact Nat.le_refl _

/-- A circuit's id is collected on the dead list exactly when its updated
state is dead. -/
theorem cleanupCircuit_dead_iff (lt now : Nat) (c : Circuit) :
    (cleanupCircuit lt now c).2 = true ↔
      (cleanupCircuit lt now c).1.state = CircuitState.dead := by
  unfold cleanupCircuit
  split_ifs with h1 h2 h3 <;> simp_all

/-! The structural invariant of reachable manager states. -/

theorem sorted_nodup {l : List Nat} (h : l.Pairwise (· < ·)) : l.Nodup :=
  h.imp Nat.ne_of_lt

/-- An id- and created_at-preserving rewrite of every registry entry keeps
the core invariant, provided degraded results keep request counts over 100
and stamped last_used values stay positive. -/
theorem Inv0.mapCircuits {s : TorManager} (h : Inv0 s) {f : Circuit → Circuit}
    (hid : ∀ c ∈ s.circuits, (f c).id = c.id)
    (hcr : ∀ c ∈ s.circuits, (f c).created_at = c.created_at)
    (hdeg : ∀ c ∈ s.circuits, (f c).state = CircuitState.degraded →
      100 < (f c).request_count)
    (hlu : ∀ c ∈ s.circuits, ∀ t, (f c).last_used = some t → 0 < t) :
    Inv0 { s with circuits := s.circuits.map f } where
  activeSub := by
    intro cid hcid
    obtain ⟨c, hc⟩ := h.activeSub cid hcid
    refine ⟨f c, ?_⟩
    show lookupCircuit (s.circuits.map f) cid = some (f c)
    rw [lookupCircuit_map_mem hid]
    unfold findCircuit at hc
    rw [hc]
    rfl
  activeSorted := h.activeSorted
  idsSorted := by
    rw [List.pairwise_map]
    refine h.idsSorted.imp_of_mem ?_
    intro a b ha hb hab
    rw [hid a ha, hid b hb]
    exact hab
  idsLt := by
    intro c' hc'
    rw [List.mem_map] at hc'
    obtain ⟨c, hc, rfl⟩ := hc'
    rw [hid c hc]
    exact h.idsLt c hc
  createdLe := by
    intro c' hc'
    rw [List.mem_map] at hc'
    obtain ⟨c, hc, rfl⟩ := hc'
    rw [hcr c hc]
    exact h.createdLe c hc
  idCreated := by
    intro c1' hc1' c2' hc2' hle
    rw [List.mem_map] at hc1' hc2'
    obtain ⟨c1, hc1, rfl⟩ := hc1'
    obtain ⟨c2, hc2, rfl⟩ := hc2'
    rw [hid c1 hc1, hid c2 hc2] at hle
    rw [hcr c1 hc1, hcr c2 hc2]
    exact h.idCreated c1 hc1 c2 hc2 hle
  degradedRc := by
    intro c' hc'
    rw [List.mem_map] at hc'
    obtain ⟨c, hc, rfl⟩ := hc'
    exact hdeg c hc
  clockPos := h.clockPos
  lastUsedPos := by
    intro c' hc'
    rw [List.mem_map] at hc'
    obtain ⟨c, hc, rfl⟩ := hc'
    exact hlu c hc

theorem inv_tick {s : TorManager} (h : Inv s) (dt : Nat) : Inv (tickClock dt s) where
  activeSub := h.activeSub
  activeSorted := h.activeSorted
  idsSorted := h.idsSorted
  idsLt := h.idsLt
  createdLe := fun c hc => Nat.le_trans (h.createdLe c hc) (Nat.le_add_right _ _)
  idCreated := h.idCreated
  degradedRc := h.degradedRc
  clockPos := Nat.lt_of_lt_of_le h.clockPos (Nat.le_add_right _ _)
  lastUsedPos := h.lastUsedPos
  activeLen := h.activeLen

theorem inv_cache {s : TorManager} (h : Inv s) (x : List (Nat × Session)) :
    Inv { s with session_cache := x } where
  activeSub := h.activeSub
  activeSorted := h.activeSorted
  idsSorted := h.idsSorted
  idsLt := h.idsLt
  createdLe := h.createdLe
  idCreated := h.idCreated
  degradedRc := h.degradedRc
  clockPos := h.clockPos
  lastUsedPos := h.lastUsedPos
  activeLen := h.activeLen

theorem inv_stop {s : TorManager} (h : Inv s) : Inv (stopManager s) :=
  inv_cache h []

theorem inv_cleanup {s : TorManager} (h : Inv s) : Inv (cleanupCircuits s) := by
  have h0 : Inv0 { s with circuits := s.circuits.map (fun c => (cleanupCircuit s.circuit_lifetime s.clock c).1) } := by
    refine h.toInv0.mapCircuits (fun c _ => cleanupCircuit_id _ _ c)
      (fun c _ => cleanupCircuit_created _ _ c) ?_ ?_
    · intro c hc hdegc
      rw [cleanupCircuit_rc]
      revert hdegc
      unfold cleanupCircuit
      split_ifs with h1 h2 h3
      · intro hx
        rw [h1] at hx
        simp at hx
      · intro hx; simp at hx
      · intro _; exact h3
      · intro hx; exact h.degradedRc c hc hx
    · intro c hc t ht
      rw [cleanupCircuit_lu] at ht
      exact h.lastUsedPos c hc t ht
  refine { activeSub := ?_, activeSorted := ?_, idsSorted := h0.idsSorted,
           idsLt := h0.idsLt, createdLe := h0.createdLe, idCreated := h0.idCreated,
           degradedRc := h0.degradedRc, clockPos := h.clockPos,
           lastUsedPos := h0.lastUsedPos, activeLen := ?_ }
  · intro cid hcid
    have hsub : cid ∈ s.active_circuits :=
      (foldl_erase_sublist _ s.active_circuits).subset hcid
    exact h0.activeSub cid hsub
  · exact h.activeSorted.sublist (foldl_erase_sublist _ _)
  · exact Nat.le_trans (foldl_erase_sublist _ _).length_le h.activeLen

theorem inv_mark {s : TorManager} (h : Inv s) (cid : Nat) :
    Inv (markCircuitDead cid s) := by
  unfold markCircuitDead
  split_ifs with hp
  · have h0 : Inv0 { s with circuits := s.circuits.map (fun c => if c.id = cid then { c with state := CircuitState.dead } else c) } := by
      refine h.toInv0.mapCircuits ?_ ?_ ?_ ?_
      · intro c _; split_ifs <;> rfl
      · intro c _; split_ifs <;> rfl
      · intro c hc hdegc
        revert hdegc
        split_ifs with he
        · intro hx; simp at hx
        · intro hx; exact h.degradedRc c hc hx
      · intro c hc t ht
        revert ht
        split_ifs with he
        · intro ht; exact h.lastUsedPos c hc t ht
        · intro ht; exact h.lastUsedPos c hc t ht
    refine { activeSub := ?_, activeSorted := ?_, idsSorted := h0.idsSorted,
             idsLt := h0.idsLt, createdLe := h0.createdLe, idCreated := h0.idCreated,
             degradedRc := h0.degradedRc, clockPos := h.clockPos,
             lastUsedPos := h0.lastUsedPos, activeLen := ?_ }
    · intro cid' hcid'
      exact h0.activeSub cid' (List.mem_of_mem_erase hcid')
    · exact h.activeSorted.sublist (List.erase_sublist _ _)
    · exact Nat.le_trans (List.erase_sublist _ _).length_le h.activeLen
  · exact h

/-- Circuit creation: core invariant is preserved, the active list grows
by at most one entry, and configuration plus session cache are kept. -/
theorem inv0_create {s : TorManager} (h : Inv0 s) (ok : Bool) :
    Inv0 (createCircuit ok s).2 ∧
    (createCircuit ok s).2.active_circuits.length ≤ s.active_circuits.length + 1 ∧
    (createCircuit ok s).2.max_circuits = s.max_circuits ∧
    (createCircuit ok s).2.session_cache = s.session_cache := by
  cases ok with
  | false => exact ⟨h, Nat.le_succ _, rfl, rfl⟩
  | true =>
    refine ⟨?_, ?_, rfl, rfl⟩
    · set newc : Circuit := { id := s.next_id, state := CircuitState.fresh, created_at := s.clock } with hnewc
      refine { activeSub := ?_, activeSorted := ?_, idsSorted := ?_, idsLt := ?_,
               createdLe := ?_, idCreated := ?_, degradedRc := ?_,
               clockPos := h.clockPos, lastUsedPos := ?_ }
      · intro cid hcid
        show ∃ c, lookupCircuit (s.circuits ++ [newc]) cid = some c
        rw [lookupCircuit_append]
        cases hl : lookupCircuit s.circuits cid with
        | some c => exact ⟨c, rfl⟩
        | none =>
          rcases List.mem_append.mp hcid with hold | hnew
          · obtain ⟨c, hc⟩ := h.activeSub cid hold
            unfold findCircuit at hc
            rw [hl] at hc
            cases hc
          · have : cid = s.next_id := List.mem_singleton.mp hnew
            subst this
            refine ⟨newc, ?_⟩
            show (lookupCircuit [newc] s.next_id) = some newc
            unfold lookupCircuit
            rw [List.find?_cons]
            simp
      · show (s.active_circuits ++ [s.next_id]).Pairwise (· < ·)
        rw [List.pairwise_append]
        refine ⟨h.activeSorted, List.pairwise_singleton _ _, ?_⟩
        intro a ha b hb
        rw [List.mem_singleton] at hb
        subst hb
        obtain ⟨c, hc⟩ := h.activeSub a ha
        obtain ⟨hcm, hcid⟩ := lookupCircuit_some hc
        rw [← hcid]
        exact h.idsLt c hcm
      · show (s.circuits ++ [newc]).Pairwise (fun a b => a.id < b.id)
        rw [List.pairwise_append]
        refine ⟨h.idsSorted, List.pairwise_singleton _ _, ?_⟩
        intro a ha b hb
        rw [List.mem_singleton] at hb
        subst hb
        exact h.idsLt a ha
      · intro c hc
        rcases List.mem_append.mp hc with hold | hnew
        · exact Nat.lt_trans (h.idsLt c hold) (Nat.lt_succ_self _)
        · rw [List.mem_singleton] at hnew
          subst hnew
          exact Nat.lt_succ_self _
      · intro c hc
        rcases List.mem_append.mp hc with hold | hnew
        · exact h.createdLe c hold
        · rw [List.mem_singleton] at hnew
          subst hnew
          exact Nat.le_refl _
      · intro c1 hc1 c2 hc2 hle
        rcases List.mem_append.mp hc1 with h1 | h1 <;>
          rcases List.mem_append.mp hc2 with h2 | h2
        · exact h.idCreated c1 h1 c2 h2 hle
        · rw [List.mem_singleton] at h2
          subst h2
          exact h.createdLe c1 h1
        · rw [List.mem_singleton] at h1
          subst h1
          exact absurd (Nat.lt_of_lt_of_le (h.idsLt c2 h2) hle) (Nat.lt_irrefl _)
        · rw [List.mem_singleton] at h1 h2
          subst h1
          subst h2
          exact Nat.le_refl _
      · intro c hc hdegc
        rcases List.mem_append.mp hc with hold | hnew
        · exact h.degradedRc c hold hdegc
        · rw [List.mem_singleton] at hnew
          subst hnew
          simp at hdegc
      · intro c hc t ht
        rcases List.mem_append.mp hc with hold | hnew
        · exact h.lastUsedPos c hold t ht
        · rw [List.mem_singleton] at hnew
          subst hnew
          simp at ht
    · show (s.active_circuits ++ [s.next_id]).length ≤ s.active_circuits.length + 1
      rw [List.length_append]
      exact Nat.le_refl _

/-! The creation loop of _initialize_circuits. -/

theorem fold_create_props (oks : Nat → Bool) :
    ∀ (idxs : List Nat) (s : TorManager), Inv0 s →
      Inv0 (idxs.foldl (fun st i => (createCircuit (oks i) st).2) s) ∧
      (idxs.foldl (fun st i => (createCircuit (oks i) st).2) s).active_circuits.length
        ≤ s.active_circuits.length + idxs.length ∧
      (idxs.foldl (fun st i => (createCircuit (oks i) st).2) s).max_circuits
        = s.max_circuits ∧
      (idxs.foldl (fun st i => (createCircuit (oks i) st).2) s).session_cache
        = s.session_cache := by
  intro idxs
  induction idxs with
  | nil =>
    intro s h
    exact ⟨h, Nat.le_add_right _ _, rfl, rfl⟩
  | cons i t ih =>
    intro s h
    simp only [List.foldl_cons, List.length_cons]
    obtain ⟨h1, h2, h3, h4⟩ := inv0_create h (oks i)
    obtain ⟨g1, g2, g3, g4⟩ := ih ((createCircuit (oks i) s).2) h1
    refine ⟨g1, ?_, ?_, ?_⟩
    · omega
    · rw [g3, h3]
    · rw [g4, h4]

theorem initCircuits_props {s : TorManager} (h : Inv0 s) (oks : Nat → Bool) :
    Inv0 (initCircuits oks s) ∧
    (initCircuits oks s).active_circuits.length
      ≤ s.active_circuits.length + min 3 s.max_circuits ∧
    (initCircuits oks s).max_circuits = s.max_circuits ∧
    (initCircuits oks s).session_cache = s.session_cache := by
  have hp := fold_create_props oks (List.range (min 3 s.max_circuits)) s h
  rw [List.length_range] at hp
  exact hp

theorem inv_init {s : TorManager} (h : Inv0 s) (hempty : s.active_circuits = [])
    (oks : Nat → Bool) : Inv (initCircuits oks s) := by
  obtain ⟨h1, h2, h3, _⟩ := initCircuits_props h oks
  refine { toInv0 := h1, activeLen := ?_ }
  rw [h3]
  rw [hempty] at h2
  simp only [List.length_nil, Nat.zero_add] at h2
  exact Nat.le_trans h2 (Nat.min_le_right 3 s.max_circuits)

theorem fold_create_length_true (oks : Nat → Bool) :
    ∀ (idxs : List Nat) (s : TorManager), (∀ i ∈ idxs, oks i = true) →
      (idxs.foldl (fun st i => (createCircuit (oks i) st).2) s).active_circuits.length
        = s.active_circuits.length + idxs.length := by
  intro idxs
  induction idxs with
  | nil => intro s _; rfl
  | cons i t ih =>
    intro s hall
    simp only [List.foldl_cons, List.length_cons]
    rw [ih _ (fun j hj => hall j (List.mem_cons_of_mem _ hj)),
      hall i (List.mem_cons_self _ _)]
    show (s.active_circuits ++ [s.next_id]).length + t.length
      = s.active_circuits.length + (t.length + 1)
    rw [List.length_append]
    simp only [List.length_cons, List.length_nil]
    omega

theorem initCircuits_length_true (s : TorManager) (oks : Nat → Bool)
    (hall : ∀ i, oks i = true) :
    (initCircuits oks s).active_circuits.length
      = s.active_circuits.length + min 3 s.max_circuits := by
  have hp := fold_create_length_true oks (List.range (min 3 s.max_circuits)) s
    (fun i _ => hall i)
  rw [List.length_range] at hp
  exact hp

theorem fold_create_circuits (oks : Nat → Bool) :
    ∀ (idxs : List Nat) (s : TorManager),
      ∃ tl, (idxs.foldl (fun st i => (createCircuit (oks i) st).2) s).circuits
        = s.circuits ++ tl := by
  intro idxs
  induction idxs with
  | nil => intro s; exact ⟨[], (List.append_nil _).symm⟩
  | cons i t ih =>
    intro s
    simp only [List.foldl_cons]
    obtain ⟨tl, htl⟩ := ih ((createCircuit (oks i) s).2)
    cases hoi : oks i with
    | true =>
      rw [hoi] at htl
      refine ⟨[{ id := s.next_id, state := CircuitState.fresh, created_at := s.clock }] ++ tl, ?_⟩
      rw [htl]
      show (s.circuits ++ [_]) ++ tl = _
      rw [List.append_assoc]
    | false =>
      rw [hoi] at htl
      exact ⟨tl, htl⟩

/-! Bulk death marking, as performed by rotate_all_circuits. -/

theorem markCircuitDead_cache (cid : Nat) (s : TorManager) :
    (markCircuitDead cid s).session_cache = s.session_cache := by
  unfold markCircuitDead
  split_ifs <;> rfl

theorem markCircuitDead_max (cid : Nat) (s : TorManager) :
    (markCircuitDead cid s).max_circuits = s.max_circuits := by
  unfold markCircuitDead
  split_ifs <;> rfl

theorem fold_mark_inv : ∀ (ids : List Nat) {s : TorManager}, Inv s →
    Inv (ids.foldl (fun st cid => markCircuitDead cid st) s) := by
  intro ids
  induction ids with
  | nil => intro s h; exact h
  | cons d t ih =>
    intro s h
    simp only [List.foldl_cons]
    exact ih (inv_mark h d)

theorem fold_mark_max : ∀ (ids : List Nat) (s : TorManager),
    (ids.foldl (fun st cid => markCircuitDead cid st) s).max_circuits
      = s.max_circuits := by
  intro ids
  induction ids with
  | nil => intro s; rfl
  | cons d t ih =>
    intro s
    simp only [List.foldl_cons]
    rw [ih, markCircuitDead_max]

/-- After folding mark_circuit_dead over a list of ids covering every
non-dead registry entry, every registry entry is dead. -/
theorem fold_mark_dead : ∀ (ids : List Nat) (s : TorManager),
    (∀ c ∈ s.circuits, c.id ∈ ids ∨ c.state = CircuitState.dead) →
    ∀ c ∈ (ids.foldl (fun st cid => markCircuitDead cid st) s).circuits,
      c.state = CircuitState.dead := by
  intro ids
  induction ids with
  | nil =>
    intro s hall c hc
    rcases hall c hc with h | h
    · cases h
    · exact h
  | cons d t ih =>
    intro s hall
    simp only [List.foldl_cons]
    refine ih (markCircuitDead d s) ?_
    intro c hc
    revert hc
    unfold markCircuitDead
    split_ifs with hp
    · intro hc
      have hc2 : c ∈ s.circuits.map (fun c0 => if c0.id = d then { c0 with state := CircuitState.dead } else c0) := hc
      rw [List.mem_map] at hc2
      obtain ⟨c0, hc0, rfl⟩ := hc2
      by_cases he : c0.id = d
      · right
        rw [if_pos he]
      · rw [if_neg he]
        rcases hall c0 hc0 with hin | hdead
        · rcases List.mem_cons.mp hin with h | h
          · exact absurd h he
          · exact Or.inl h
        · exact Or.inr hdead
    · intro hc
      rcases hall c hc with hin | hdead
      · rcases List.mem_cons.mp hin with h | h
        · subst h
          exact absurd (any_id_iff.mpr ⟨c, hc, rfl⟩) hp
        · exact Or.inl h
      · exact Or.inr hdead

/-- The registry keeps the same ids (in order) under bulk marking. -/
theorem fold_mark_ids : ∀ (ids : List Nat) (s : TorManager),
    (ids.foldl (fun st cid => markCircuitDead cid st) s).circuits.map (fun c => c.id)
      = s.circuits.map (fun c => c.id) := by
  intro ids
  induction ids with
  | nil => intro s; rfl
  | cons d t ih =>
    intro s
    simp only [List.foldl_cons]
    rw [ih]
    unfold markCircuitDead
    split_ifs with hp
    · show ((s.circuits.map (fun c => if c.id = d then { c with state := CircuitState.dead } else c)).map (fun c => c.id)) = s.circuits.map (fun c => c.id)
      rw [List.map_map]
      refine List.map_congr_left ?_
      intro c _
      show (if c.id = d then { c with state := CircuitState.dead } else c).id = c.id
      split_ifs <;> rfl
    · rfl

/-- Marking every active id empties the active list. -/
theorem fold_mark_active_nil : ∀ (ids : List Nat) {s : TorManager}, Inv s →
    (∀ cid ∈ s.active_circuits, cid ∈ ids) →
    (ids.foldl (fun st cid => markCircuitDead cid st) s).active_circuits = [] := by
  intro ids
  induction ids with
  | nil =>
    intro s _ hsub
    rw [List.eq_nil_iff_forall_not_mem]
    intro a ha
    exact absurd (hsub a ha) (by simp)
  | cons d t ih =>
    intro s h hsub
    simp only [List.foldl_cons]
    refine ih (inv_mark h d) ?_
    intro cid hcid
    revert hcid
    unfold markCircuitDead
    split_ifs with hp
    · intro hcid
      have hcid2 : cid ∈ s.active_circuits.erase d := hcid
      have hnd : s.active_circuits.Nodup := sorted_nodup h.activeSorted
      rw [hnd.mem_erase_iff] at hcid2
      rcases List.mem_cons.mp (hsub cid hcid2.2) with he | ht
      · exact absurd he hcid2.1
      · exact ht
    · intro hcid
      rcases List.mem_cons.mp (hsub cid hcid) with he | ht
      · subst he
        obtain ⟨c, hc⟩ := h.activeSub cid hcid
        obtain ⟨hcm, hcid'⟩ := lookupCircuit_some hc
        exact absurd (any_id_iff.mpr ⟨c, hcm, hcid'⟩) hp
      · exact ht

theorem inv_rotate {s : TorManager} (h : Inv s) (oks : Nat → Bool) :
    Inv (rotateAllCircuits oks s) := by
  show Inv (initCircuits oks { ((s.circuits.map (fun c => c.id)).foldl
    (fun st cid => markCircuitDead cid st) s) with session_cache := [] })
  have h1 : Inv ((s.circuits.map (fun c => c.id)).foldl
      (fun st cid => markCircuitDead cid st) s) := fold_mark_inv _ h
  have h2 : ((s.circuits.map (fun c => c.id)).foldl
      (fun st cid => markCircuitDead cid st) s).active_circuits = [] := by
    refine fold_mark_active_nil _ h ?_
    intro cid hcid
    obtain ⟨c, hc⟩ := h.activeSub cid hcid
    obtain ⟨hcm, hcid'⟩ := lookupCircuit_some hc
    rw [List.mem_map]
    exact ⟨c, hcm, hcid'⟩
  exact inv_init (inv_cache h1 []).toInv0 h2 oks

/-! Case analysis of get_circuit. -/

/-- What a successful healthy scan guarantees. -/
theorem scanHealthy_some {rf : Bool} {s : TorManager} {c : Circuit}
    (h : scanHealthy rf s = some c) :
    c.id ∈ s.active_circuits ∧ findCircuit s c.id = some c ∧
      c.is_healthy s.clock = true ∧ (rf = true → c.request_count = 0) := by
  unfold scanHealthy at h
  obtain ⟨cid, hmem, hf⟩ := List.exists_of_findSome?_eq_some h
  cases hl : findCircuit s cid with
  | none =>
    rw [hl] at hf
    dsimp only at hf
    cases hf
  | some d =>
    rw [hl] at hf
    dsimp only at hf
    split_ifs at hf with hcond
    · injection hf with hdc
      subst hdc
      rw [Bool.and_eq_true] at hcond
      obtain ⟨hmm, hcid⟩ := lookupCircuit_some hl
      subst hcid
      refine ⟨hmem, hl, hcond.1, ?_⟩
      intro hrf
      subst hrf
      have h2 := hcond.2
      simp only [Bool.not_true, Bool.false_or] at h2
      simpa using h2

theorem getCircuit_scan {rf ok : Bool} {s0 : TorManager} {c : Circuit}
    (hscan : scanHealthy rf (cleanupCircuits s0) = some c) :
    getCircuit rf ok s0 =
      (some { c with request_count := c.request_count + 1, last_used := some (cleanupCircuits s0).clock, state := CircuitState.active },
       updateCircuit (cleanupCircuits s0) c.id (fun _ => { c with request_count := c.request_count + 1, last_used := some (cleanupCircuits s0).clock, state := CircuitState.active })) := by
  simp only [getCircuit, hscan]

theorem getCircuit_none_full {rf ok : Bool} {s0 : TorManager}
    (hscan : scanHealthy rf (cleanupCircuits s0) = none)
    (hfull : ¬ (cleanupCircuits s0).active_circuits.length
      < (cleanupCircuits s0).max_circuits) :
    getCircuit rf ok s0 = recycleOldest (cleanupCircuits s0) := by
  simp only [getCircuit, hscan, if_neg hfull]

theorem createCircuit_false (s : TorManager) : createCircuit false s = (none, s) := rfl

theorem createCircuit_true (s : TorManager) :
    createCircuit true s =
      (some { id := s.next_id, state := CircuitState.fresh, created_at := s.clock },
       { s with circuits := s.circuits ++ [{ id := s.next_id, state := CircuitState.fresh, created_at := s.clock }],
                active_circuits := s.active_circuits ++ [s.next_id],
                next_id := s.next_id + 1 }) := rfl

theorem getCircuit_none_nocreate {rf : Bool} {s0 : TorManager}
    (hscan : scanHealthy rf (cleanupCircuits s0) = none) :
    getCircuit rf false s0 = recycleOldest (cleanupCircuits s0) := by
  simp only [getCircuit, hscan, createCircuit_false]
  split_ifs <;> rfl

theorem getCircuit_create {rf : Bool} {s0 : TorManager}
    (hscan : scanHealthy rf (cleanupCircuits s0) = none)
    (hlen : (cleanupCircuits s0).active_circuits.length
      < (cleanupCircuits s0).max_circuits) :
    getCircuit rf true s0 =
      (some { id := (cleanupCircuits s0).next_id, state := CircuitState.fresh, created_at := (cleanupCircuits s0).clock, request_count := 1, last_used := some (cleanupCircuits s0).clock },
       updateCircuit (createCircuit true (cleanupCircuits s0)).2 (cleanupCircuits s0).next_id (fun _ => { id := (cleanupCircuits s0).next_id, state := CircuitState.fresh, created_at := (cleanupCircuits s0).clock, request_count := 1, last_used := some (cleanupCircuits s0).clock })) := by
  simp only [getCircuit, hscan, if_pos hlen, createCircuit_true]

/-- The single-circuit update performed by the selection paths of
get_circuit preserves the invariant. -/
theorem inv_update {s : TorManager} (h : Inv s) {c c' : Circuit}
    (hc : findCircuit s c.id = some c)
    (hid : c'.id = c.id) (hcr : c'.created_at = c.created_at)
    (hdeg : c'.state = CircuitState.degraded → 100 < c'.request_count)
    (hlu : ∀ t, c'.last_used = some t → 0 < t) :
    Inv (updateCircuit s c.id (fun _ => c')) := by
  obtain ⟨hcm, _⟩ := lookupCircuit_some hc
  have h0 : Inv0 { s with circuits := s.circuits.map (fun c2 => if c2.id = c.id then c' else c2) } := by
    refine h.toInv0.mapCircuits ?_ ?_ ?_ ?_
    · intro c2 hc2
      dsimp only
      split_ifs with he
      · rw [hid, he]
      · rfl
    · intro c2 hc2
      dsimp only
      split_ifs with he
      · have he2 : c2 = c := mem_id_eq h.idsSorted hc2 hcm he
        rw [hcr, he2]
      · rfl
    · intro c2 hc2
      dsimp only
      split_ifs with he
      · exact fun hd => hdeg hd
      · exact h.degradedRc c2 hc2
    · intro c2 hc2 t
      dsimp only
      split_ifs with he
      · exact hlu t
      · exact h.lastUsedPos c2 hc2 t
  exact { toInv0 := h0, activeLen := h.activeLen }

theorem findCircuit_create_new {s : TorManager} (h : Inv0 s) :
    findCircuit (createCircuit true s).2 s.next_id
      = some { id := s.next_id, state := CircuitState.fresh, created_at := s.clock } := by
  show lookupCircuit (s.circuits ++ [{ id := s.next_id, state := CircuitState.fresh, created_at := s.clock }]) s.next_id = _
  rw [lookupCircuit_append]
  have hn : lookupCircuit s.circuits s.next_id = none := by
    unfold lookupCircuit
    rw [List.find?_eq_none]
    intro c hc
    simp only [decide_eq_true_eq]
    exact Nat.ne_of_lt (h.idsLt c hc)
  rw [hn]
  unfold lookupCircuit
  rw [List.find?_cons]
  simp

theorem recycleOldest_nil {s : TorManager} (hact : s.active_circuits = []) :
    recycleOldest s = (none, s) := by
  unfold recycleOldest
  rw [hact]

theorem recycleOldest_none {s : TorManager} {x : Nat} {xs : List Nat}
    (hact : s.active_circuits = x :: xs)
    (hfc : findCircuit s (pickMin (recycleKey s) x xs) = none) :
    recycleOldest s = (none, s) := by
  unfold recycleOldest
  rw [hact]
  show (match findCircuit s (pickMin (recycleKey s) x xs) with
    | none => ((none : Option Circuit), s)
    | some c => (some { c with request_count := c.request_count + 1, last_used := some s.clock },
        updateCircuit s (pickMin (recycleKey s) x xs) (fun _ => { c with request_count := c.request_count + 1, last_used := some s.clock }))) = (none, s)
  rw [hfc]

theorem recycleOldest_cons {s : TorManager} {x : Nat} {xs : List Nat}
    (hact : s.active_circuits = x :: xs) {c : Circuit}
    (hfc : findCircuit s (pickMin (recycleKey s) x xs) = some c) :
    recycleOldest s =
      (some { c with request_count := c.request_count + 1, last_used := some s.clock },
       updateCircuit s (pickMin (recycleKey s) x xs) (fun _ => { c with request_count := c.request_count + 1, last_used := some s.clock })) := by
  unfold recycleOldest
  rw [hact]
  show (match findCircuit s (pickMin (recycleKey s) x xs) with
    | none => ((none : Option Circuit), s)
    | some c => (some { c with request_count := c.request_count + 1, last_used := some s.clock },
        updateCircuit s (pickMin (recycleKey s) x xs) (fun _ => { c with request_count := c.request_count + 1, last_used := some s.clock }))) = _
  rw [hfc]

theorem inv_recycle {s : TorManager} (h : Inv s) : Inv (recycleOldest s).2 := by
  cases hact : s.active_circuits with
  | nil =>
    rw [recycleOldest_nil hact]
    exact h
  | cons x xs =>
    cases hfc : findCircuit s (pickMin (recycleKey s) x xs) with
    | none =>
      rw [recycleOldest_none hact hfc]
      exact h
    | some c =>
      rw [recycleOldest_cons hact hfc]
      obtain ⟨hcm, hcid⟩ := lookupCircuit_some hfc
      rw [← hcid] at hfc ⊢
      refine inv_update h hfc rfl rfl ?_ ?_
      · intro hd
        exact Nat.lt_succ_of_lt (h.degradedRc c hcm hd)
      · intro t ht
        injection ht with ht2
        rw [← ht2]
        exact h.clockPos

theorem inv_getCircuit {s : TorManager} (h : Inv s) (rf ok : Bool) :
    Inv (getCircuit rf ok s).2 := by
  have h1 : Inv (cleanupCircuits s) := inv_cleanup h
  cases hscan : scanHealthy rf (cleanupCircuits s) with
  | some c =>
    rw [getCircuit_scan hscan]
    obtain ⟨hmem, hfc, hhe, _⟩ := scanHealthy_some hscan
    refine inv_update h1 hfc rfl rfl ?_ ?_
    · intro hd
      exact absurd hd (by simp)
    · intro t ht
      injection ht with ht2
      rw [← ht2]
      exact h1.clockPos
  | none =>
    by_cases hlen : (cleanupCircuits s).active_circuits.length
      < (cleanupCircuits s).max_circuits
    · cases ok with
      | true =>
        rw [getCircuit_create hscan hlen]
        obtain ⟨h2, h3, h4, _⟩ := inv0_create h1.toInv0 true
        have h5 : Inv (createCircuit true (cleanupCircuits s)).2 := by
          refine { toInv0 := h2, activeLen := ?_ }
          rw [h4]
          exact Nat.le_trans h3 (Nat.succ_le_of_lt hlen)
        have h6 : findCircuit (createCircuit true (cleanupCircuits s)).2 ({ id := (cleanupCircuits s).next_id, state := CircuitState.fresh, created_at := (cleanupCircuits s).clock } : Circuit).id = some { id := (cleanupCircuits s).next_id, state := CircuitState.fresh, created_at := (cleanupCircuits s).clock } :=
          findCircuit_create_new h1.toInv0
        refine inv_update h5 h6 rfl rfl ?_ ?_
        · intro hd
          have hd2 : CircuitState.fresh = CircuitState.degraded := hd
          exact CircuitState.noConfusion hd2
        · intro t ht
          have ht2 : some (cleanupCircuits s).clock = some t := ht
          injection ht2 with ht3
          rw [← ht3]
          exact h1.clockPos
      | false =>
        rw [getCircuit_none_nocreate hscan]
        exact inv_recycle h1
    · rw [getCircuit_none_full hscan hlen]
      exact inv_recycle h1

theorem sessionFor_state (c : Circuit) (ua : String) (s : TorManager) :
    (sessionFor c ua s).2 = s ∨
    (sessionFor c ua s).2 = { s with session_cache := s.session_cache ++ [(c.id, mkSession s.socks_port ua)] } := by
  unfold sessionFor
  cases sessionLookup s.session_cache c.id with
  | some sess => exact Or.inl rfl
  | none => exact Or.inr rfl

theorem inv_sessionFor {s : TorManager} (h : Inv s) (c : Circuit) (ua : String) :
    Inv (sessionFor c ua s).2 := by
  rcases sessionFor_state c ua s with he | he <;> rw [he]
  · exact h
  · exact inv_cache h _

theorem inv_session {s : TorManager} (h : Inv s) (copt : Option Circuit)
    (ok : Bool) (ua : String) : Inv (getHttpSession copt ok ua s).2 := by
  cases copt with
  | some c => exact inv_sessionFor h c ua
  | none =>
    show Inv (match getCircuit false ok s with
      | (some c, s1) => sessionFor c ua s1
      | (none, s1) => (Except.error (PyError.runtimeError "No available circuits"), s1)).2
    have hg : Inv (getCircuit false ok s).2 := inv_getCircuit h false ok
    cases he : getCircuit false ok s with
    | mk o s1 =>
      rw [he] at hg
      cases o with
      | some c => exact inv_sessionFor hg c ua
      | none => exact hg

theorem inv_initManager (sp mx lt cl : Nat) (hcl : 0 < cl) :
    Inv0 (initManager sp mx lt cl) where
  activeSub := by intro cid h; simp [initManager] at h
  activeSorted := List.Pairwise.nil
  idsSorted := List.Pairwise.nil
  idsLt := by intro c hc; simp [initManager] at hc
  createdLe := by intro c hc; simp [initManager] at hc
  idCreated := by intro c1 hc1; simp [initManager] at hc1
  degradedRc := by intro c hc; simp [initManager] at hc
  clockPos := hcl
  lastUsedPos := by intro c hc; simp [initManager] at hc

/-- Every reachable manager state satisfies the structural invariant. -/
theorem reachable_inv {s : TorManager} (h : Reachable s) : Inv s := by
  induction h with
  | start sp mx lt cl oks hcl =>
    exact inv_init (inv_initManager sp mx lt cl hcl) rfl oks
  | step hr hst ih =>
    cases hst with
    | tick dt s => exact inv_tick ih dt
    | acquire rf ok s => exact inv_getCircuit ih rf ok
    | cleanup s => exact inv_cleanup ih
    | markDead cid s => exact inv_mark ih cid
    | rotate oks s => exact inv_rotate ih oks
    | session copt ok ua s => exact inv_session ih copt ok ua
    | stop s => exact inv_stop ih

/-! State-rank monotonicity machinery (for the lifecycle claim). -/

theorem rank_le_three (st : CircuitState) : st.rank ≤ 3 := by
  cases st <;> simp [CircuitState.rank]

theorem is_healthy_not_dead {c : Circuit} {now : Nat}
    (h : c.is_healthy now = true) : c.state ≠ CircuitState.dead := by
  unfold Circuit.is_healthy at h
  split_ifs at h with h1 h2 h3
  exact h1

theorem is_healthy_rc {c : Circuit} {now : Nat}
    (h : c.is_healthy now = true) : c.request_count ≤ 100 := by
  unfold Circuit.is_healthy at h
  split_ifs at h with h1 h2 h3
  exact Nat.le_of_not_lt h3

theorem is_healthy_age {c : Circuit} {now : Nat}
    (h : c.is_healthy now = true) : c.age now ≤ 600 := by
  unfold Circuit.is_healthy at h
  split_ifs at h with h1 h2 h3
  exact Nat.le_of_not_lt h2

/-- A healthy circuit of an invariant-satisfying registry is fresh or
active, so selecting it (state := ACTIVE) moves its rank forward. -/
theorem healthy_rank_le_one {s : TorManager} (h : Inv s) {c : Circuit}
    (hcm : c ∈ s.circuits) (hhe : c.is_healthy s.clock = true) :
    c.state.rank ≤ 1 := by
  have h1 := is_healthy_not_dead hhe
  have h2 := is_healthy_rc hhe
  cases hst : c.state with
  | fresh => simp [CircuitState.rank]
  | active => simp [CircuitState.rank]
  | degraded => exact absurd h2 (Nat.not_le_of_lt (h.degradedRc c hcm hst))
  | dead => exact absurd hst h1

theorem circuitsMono_of_eq {s s' : TorManager} (h : s'.circuits = s.circuits) :
    CircuitsMono s s' := by
  intro cid c c' hc hc'
  unfold findCircuit at hc hc'
  rw [h, hc] at hc'
  injection hc' with he
  rw [he]

theorem circuitsPres_of_eq {s s' : TorManager} (h : s'.circuits = s.circuits) :
    CircuitsPres s s' := by
  intro cid hc
  unfold findCircuit at hc ⊢
  rw [h]
  exact hc

theorem circuitsMono_trans {s t u : TorManager} (h1 : CircuitsMono s t)
    (hp : CircuitsPres s t) (h2 : CircuitsMono t u) : CircuitsMono s u := by
  intro cid c c' hc hc'
  have hsome : (findCircuit t cid).isSome = true := hp cid (by rw [hc]; rfl)
  cases hd : findCircuit t cid with
  | none => rw [hd] at hsome; cases hsome
  | some d => exact Nat.le_trans (h1 cid c d hc hd) (h2 cid d c' hd hc')

theorem circuitsPres_trans {s t u : TorManager} (h1 : CircuitsPres s t)
    (h2 : CircuitsPres t u) : CircuitsPres s u :=
  fun cid hs => h2 cid (h1 cid hs)

theorem circuitsMono_map {s s' : TorManager} {f : Circuit → Circuit}
    (hc' : s'.circuits = s.circuits.map f)
    (hid : ∀ c ∈ s.circuits, (f c).id = c.id)
    (hrk : ∀ c ∈ s.circuits, c.state.rank ≤ (f c).state.rank) :
    CircuitsMono s s' ∧ CircuitsPres s s' := by
  constructor
  · intro cid c c' hc hcc
    unfold findCircuit at hc hcc
    rw [hc', lookupCircuit_map_mem hid, hc] at hcc
    injection hcc with he
    rw [← he]
    exact hrk c (lookupCircuit_some hc).1
  · intro cid hc
    unfold findCircuit at hc ⊢
    rw [hc', lookupCircuit_map_mem hid]
    cases hl : lookupCircuit s.circuits cid with
    | none => rw [hl] at hc; cases hc
    | some d => rfl

theorem circuitsMono_append {s s' : TorManager} {tl : List Circuit}
    (hc' : s'.circuits = s.circuits ++ tl) :
    CircuitsMono s s' ∧ CircuitsPres s s' := by
  constructor
  · intro cid c c' hc hcc
    unfold findCircuit at hc hcc
    rw [hc', lookupCircuit_append, hc, Option.or_some] at hcc
    injection hcc with he
    rw [he]
  · intro cid hc
    unfold findCircuit at hc ⊢
    rw [hc', lookupCircuit_append]
    cases hl : lookupCircuit s.circuits cid with
    | none => rw [hl] at hc; cases hc
    | some d => rw [Option.or_some]; rfl

theorem circuitsMono_cleanup (s : TorManager) :
    CircuitsMono s (cleanupCircuits s) ∧ CircuitsPres s (cleanupCircuits s) :=
  circuitsMono_map rfl (fun c _ => cleanupCircuit_id _ _ c)
    (fun c _ => cleanupCircuit_rank _ _ c)

theorem circuitsMono_mark (s : TorManager) (cid : Nat) :
    CircuitsMono s (markCircuitDead cid s) ∧
      CircuitsPres s (markCircuitDead cid s) := by
  unfold markCircuitDead
  split_ifs with hp
  · refine circuitsMono_map rfl ?_ ?_
    · intro c _
      split_ifs <;> rfl
    · intro c _
      split_ifs with he
      · exact rank_le_three c.state
      · exact Nat.le_refl _
  · exact ⟨circuitsMono_of_eq rfl, circuitsPres_of_eq rfl⟩

theorem circuitsMono_update_bump {s : TorManager} (h : Inv s) {c c' : Circuit}
    (hc : findCircuit s c.id = some c) (hrk : c.state.rank ≤ c'.state.rank)
    (hid : c'.id = c.id) :
    CircuitsMono s (updateCircuit s c.id (fun _ => c')) ∧
      CircuitsPres s (updateCircuit s c.id (fun _ => c')) := by
  obtain ⟨hcm, _⟩ := lookupCircuit_some hc
  refine circuitsMono_map rfl ?_ ?_
  · intro c2 hc2
    dsimp only
    split_ifs with he
    · rw [hid, he]
    · rfl
  · intro c2 hc2
    dsimp only
    split_ifs with he
    · rw [mem_id_eq h.idsSorted hc2 hcm he]
      exact hrk
    · exact Nat.le_refl _

theorem circuitsMono_recycle {s : TorManager} (h : Inv s) :
    CircuitsMono s (recycleOldest s).2 ∧ CircuitsPres s (recycleOldest s).2 := by
  cases hact : s.active_circuits with
  | nil =>
    rw [recycleOldest_nil hact]
    exact ⟨circuitsMono_of_eq rfl, circuitsPres_of_eq rfl⟩
  | cons x xs =>
    cases hfc : findCircuit s (pickMin (recycleKey s) x xs) with
    | none =>
      rw [recycleOldest_none hact hfc]
      exact ⟨circuitsMono_of_eq rfl, circuitsPres_of_eq rfl⟩
    | some c =>
      rw [recycleOldest_cons hact hfc]
      obtain ⟨hcm, hcid⟩ := lookupCircuit_some hfc
      rw [← hcid] at hfc ⊢
      exact circuitsMono_update_bump h hfc (Nat.le_refl _) rfl

theorem circuitsMono_getCircuit {s : TorManager} (h : Inv s) (rf ok : Bool) :
    CircuitsMono s (getCircuit rf ok s).2 ∧
      CircuitsPres s (getCircuit rf ok s).2 := by
  have h1 : Inv (cleanupCircuits s) := inv_cleanup h
  have hm1 := circuitsMono_cleanup s
  cases hscan : scanHealthy rf (cleanupCircuits s) with
  | some c =>
    rw [getCircuit_scan hscan]
    obtain ⟨hmem, hfc, hhe, _⟩ := scanHealthy_some hscan
    have hcm := (lookupCircuit_some hfc).1
    have hrk : c.state.rank ≤ ({ c with request_count := c.request_count + 1, last_used := some (cleanupCircuits s).clock, state := CircuitState.active } : Circuit).state.rank :=
      healthy_rank_le_one h1 hcm hhe
    have hm2 := circuitsMono_update_bump h1 hfc hrk rfl
    exact ⟨circuitsMono_trans hm1.1 hm1.2 hm2.1, circuitsPres_trans hm1.2 hm2.2⟩
  | none =>
    by_cases hlen : (cleanupCircuits s).active_circuits.length
      < (cleanupCircuits s).max_circuits
    · cases ok with
      | true =>
        rw [getCircuit_create hscan hlen]
        have hm2 : CircuitsMono (cleanupCircuits s) (createCircuit true (cleanupCircuits s)).2 ∧
            CircuitsPres (cleanupCircuits s) (createCircuit true (cleanupCircuits s)).2 :=
          circuitsMono_append rfl
        obtain ⟨h2, h3, h4, _⟩ := inv0_create h1.toInv0 true
        have h5 : Inv (createCircuit true (cleanupCircuits s)).2 :=
          { toInv0 := h2, activeLen := by rw [h4]; exact Nat.le_trans h3 (Nat.succ_le_of_lt hlen) }
        have h6 : findCircuit (createCircuit true (cleanupCircuits s)).2 ({ id := (cleanupCircuits s).next_id, state := CircuitState.fresh, created_at := (cleanupCircuits s).clock } : Circuit).id = some { id := (cleanupCircuits s).next_id, state := CircuitState.fresh, created_at := (cleanupCircuits s).clock } :=
          findCircuit_create_new h1.toInv0
        have hrk3 : ({ id := (cleanupCircuits s).next_id, state := CircuitState.fresh, created_at := (cleanupCircuits s).clock } : Circuit).state.rank ≤ ({ id := (cleanupCircuits s).next_id, state := CircuitState.fresh, created_at := (cleanupCircuits s).clock, request_count := 1, last_used := some (cleanupCircuits s).clock } : Circuit).state.rank :=
          Nat.le_refl _
        have hm3 := circuitsMono_update_bump h5 h6 hrk3 rfl
        exact ⟨circuitsMono_trans hm1.1 hm1.2
            (circuitsMono_trans hm2.1 hm2.2 hm3.1),
          circuitsPres_trans hm1.2 (circuitsPres_trans hm2.2 hm3.2)⟩
      | false =>
        rw [getCircuit_none_nocreate hscan]
        have hm2 := circuitsMono_recycle h1
        exact ⟨circuitsMono_trans hm1.1 hm1.2 hm2.1, circuitsPres_trans hm1.2 hm2.2⟩
    · rw [getCircuit_none_full hscan hlen]
      have hm2 := circuitsMono_recycle h1
      exact ⟨circuitsMono_trans hm1.1 hm1.2 hm2.1, circuitsPres_trans hm1.2 hm2.2⟩

theorem circuitsMono_fold_mark : ∀ (ids : List Nat) {s : TorManager}, Inv s →
    CircuitsMono s (ids.foldl (fun st cid => markCircuitDead cid st) s) ∧
      CircuitsPres s (ids.foldl (fun st cid => markCircuitDead cid st) s) := by
  intro ids
  induction ids with
  | nil => intro s _; exact ⟨circuitsMono_of_eq rfl, circuitsPres_of_eq rfl⟩
  | cons d t ih =>
    intro s h
    simp only [List.foldl_cons]
    have h1 := circuitsMono_mark s d
    have h2 := ih (inv_mark h d)
    exact ⟨circuitsMono_trans h1.1 h1.2 h2.1, circuitsPres_trans h1.2 h2.2⟩

theorem circuitsMono_fold_create (oks : Nat → Bool) :
    ∀ (idxs : List Nat) (s : TorManager),
      CircuitsMono s (idxs.foldl (fun st i => (createCircuit (oks i) st).2) s) ∧
      CircuitsPres s (idxs.foldl (fun st i => (createCircuit (oks i) st).2) s) := by
  intro idxs
  induction idxs with
  | nil => intro s; exact ⟨circuitsMono_of_eq rfl, circuitsPres_of_eq rfl⟩
  | cons i t ih =>
    intro s
    simp only [List.foldl_cons]
    have h2 := ih ((createCircuit (oks i) s).2)
    have h1 : CircuitsMono s (createCircuit (oks i) s).2 ∧
        CircuitsPres s (createCircuit (oks i) s).2 := by
      cases hoi : oks i with
      | true => exact circuitsMono_append rfl
      | false => exact ⟨circuitsMono_of_eq rfl, circuitsPres_of_eq rfl⟩
    exact ⟨circuitsMono_trans h1.1 h1.2 h2.1, circuitsPres_trans h1.2 h2.2⟩

theorem circuitsMono_rotate {s : TorManager} (h : Inv s) (oks : Nat → Bool) :
    CircuitsMono s (rotateAllCircuits oks s) ∧
      CircuitsPres s (rotateAllCircuits oks s) := by
  have h1 := circuitsMono_fold_mark (s.circuits.map (fun c => c.id)) h
  set sm : TorManager := (s.circuits.map (fun c => c.id)).foldl
    (fun st cid => markCircuitDead cid st) s with hsm
  set sc : TorManager := { sm with session_cache := [] } with hsc
  have h1' : CircuitsMono sm sc ∧ CircuitsPres sm sc :=
    ⟨circuitsMono_of_eq rfl, circuitsPres_of_eq rfl⟩
  have h2 := circuitsMono_fold_create oks (List.range (min 3 sc.max_circuits)) sc
  show CircuitsMono s (initCircuits oks sc) ∧ CircuitsPres s (initCircuits oks sc)
  exact ⟨circuitsMono_trans h1.1 h1.2 (circuitsMono_trans h1'.1 h1'.2 h2.1),
    circuitsPres_trans h1.2 (circuitsPres_trans h1'.2 h2.2)⟩

theorem circuitsMono_sessionFor {s : TorManager} (c : Circuit) (ua : String) :
    CircuitsMono s (sessionFor c ua s).2 ∧ CircuitsPres s (sessionFor c ua s).2 := by
  rcases sessionFor_state c ua s with he | he <;> rw [he]
  · exact ⟨circuitsMono_of_eq rfl, circuitsPres_of_eq rfl⟩
  · exact ⟨circuitsMono_of_eq rfl, circuitsPres_of_eq rfl⟩

/-- Every single manager operation only moves circuit states forward in
the lifecycle order fresh, active, degraded, dead. -/
theorem step_circuitsMono {s s' : TorManager} (h : Inv s) (hst : Step s s') :
    CircuitsMono s s' := by
  cases hst with
  | tick dt s => exact circuitsMono_of_eq rfl
  | acquire rf ok s => exact (circuitsMono_getCircuit h rf ok).1
  | cleanup s => exact (circuitsMono_cleanup s).1
  | markDead cid s => exact (circuitsMono_mark s cid).1
  | rotate oks s => exact (circuitsMono_rotate h oks).1
  | session copt ok ua s =>
    cases copt with
    | some c => exact (circuitsMono_sessionFor c ua).1
    | none =>
      show CircuitsMono s (match getCircuit false ok s with
        | (some c, s1) => sessionFor c ua s1
        | (none, s1) => (Except.error (PyError.runtimeError "No available circuits"), s1)).2
      have hg := circuitsMono_getCircuit h false ok
      cases he : getCircuit false ok s with
      | mk o s1 =>
        rw [he] at hg
        cases o with
        | some c =>
          have hs := circuitsMono_sessionFor (s := s1) c ua
          exact circuitsMono_trans hg.1 hg.2 hs.1
        | none => exact hg.1
  | stop s => exact circuitsMono_of_eq rfl

/-! After cleanup, no id on the active list maps to a dead circuit. -/

theorem cleanup_active_not_dead {s : TorManager} (h : Inv s) :
    ∀ cid ∈ (cleanupCircuits s).active_circuits, ∀ c,
      findCircuit (cleanupCircuits s) cid = some c →
        c.state ≠ CircuitState.dead := by
  intro cid hcid c hc hdead
  have hcid2 : cid ∈ (((s.circuits.map (cleanupCircuit s.circuit_lifetime s.clock)).filter
      (fun p => p.2)).map (fun p => p.1.id)).foldl List.erase s.active_circuits := hcid
  obtain ⟨hin, hnotds⟩ := mem_foldl_erase (sorted_nodup h.activeSorted) hcid2
  have hc2 : lookupCircuit (s.circuits.map (fun c0 => (cleanupCircuit s.circuit_lifetime s.clock c0).1)) cid = some c := hc
  rw [lookupCircuit_map_mem (fun c0 _ => cleanupCircuit_id _ _ c0)] at hc2
  cases hl : lookupCircuit s.circuits cid with
  | none => rw [hl] at hc2; cases hc2
  | some c0 =>
    rw [hl] at hc2
    injection hc2 with he
    obtain ⟨hc0m, hc0id⟩ := lookupCircuit_some hl
    refine hnotds ?_
    rw [List.mem_map]
    refine ⟨cleanupCircuit s.circuit_lifetime s.clock c0, ?_, ?_⟩
    · rw [List.mem_filter]
      refine ⟨List.mem_map.mpr ⟨c0, hc0m, rfl⟩, ?_⟩
      rw [cleanupCircuit_dead_iff]
      have he2 : (cleanupCircuit s.circuit_lifetime s.clock c0).1 = c := he
      rw [he2]
      exact hdead
    · rw [cleanupCircuit_id]
      exact hc0id

/-! Characterization of the recycle fallback. -/

theorem recycleOldest_some {t : TorManager} {c : Circuit} {t' : TorManager}
    (hr : recycleOldest t = (some c, t')) :
    ∃ x xs d, t.active_circuits = x :: xs ∧
      findCircuit t (pickMin (recycleKey t) x xs) = some d ∧
      c = { d with request_count := d.request_count + 1, last_used := some t.clock } ∧
      t' = updateCircuit t (pickMin (recycleKey t) x xs)
        (fun _ => { d with request_count := d.request_count + 1, last_used := some t.clock }) := by
  cases hact : t.active_circuits with
  | nil =>
    rw [recycleOldest_nil hact] at hr
    injection hr with h1 h2
    cases h1
  | cons x xs =>
    cases hfc : findCircuit t (pickMin (recycleKey t) x xs) with
    | none =>
      rw [recycleOldest_none hact hfc] at hr
      injection hr with h1 h2
      cases h1
    | some d =>
      rw [recycleOldest_cons hact hfc] at hr
      injection hr with h1 h2
      injection h1 with h1'
      exact ⟨x, xs, d, rfl, hfc, h1'.symm, h2.symm⟩

theorem cleanupCircuit_dead_fst {lt now : Nat} {c : Circuit}
    (h : c.state = CircuitState.dead) : (cleanupCircuit lt now c).1 = c := by
  unfold cleanupCircuit
  rw [if_pos h]

/-- A circuit that is dead before cleanup is still registered, still dead,
and off the active list afterwards. -/
theorem cleanup_dead_lookup {s : TorManager} {cid : Nat} {c : Circuit}
    (hc : findCircuit s cid = some c) (hdead : c.state = CircuitState.dead) :
    findCircuit (cleanupCircuits s) cid = some c := by
  have hc2 : lookupCircuit (s.circuits.map (fun c0 => (cleanupCircuit s.circuit_lifetime s.clock c0).1)) cid
      = (lookupCircuit s.circuits cid).map (fun c0 => (cleanupCircuit s.circuit_lifetime s.clock c0).1) :=
    lookupCircuit_map_mem (fun c0 _ => cleanupCircuit_id _ _ c0) cid
  show lookupCircuit (s.circuits.map (fun c0 => (cleanupCircuit s.circuit_lifetime s.clock c0).1)) cid = some c
  rw [hc2]
  unfold findCircuit at hc
  rw [hc]
  show some (cleanupCircuit s.circuit_lifetime s.clock c).1 = some c
  rw [cleanupCircuit_dead_fst hdead]

/-- Claim C1: in every reachable pool state, whenever get_circuit returns
a circuit, through the healthy scan, new creation, or recycling, the
returned circuit's state is not Dead. -/
theorem claim_C1 {s s' : TorManager} {rf ok : Bool} {c : Circuit}
    (h : Reachable s) (hg : getCircuit rf ok s = (some c, s')) :
    c.state ≠ CircuitState.dead := by
  have hin := reachable_inv h
  have h1 := inv_cleanup hin
  cases hscan : scanHealthy rf (cleanupCircuits s) with
  | some c0 =>
    rw [getCircuit_scan hscan] at hg
    injection hg with hg1 hg2
    injection hg1 with hg1'
    rw [← hg1']
    intro hd
    have hd2 : CircuitState.active = CircuitState.dead := hd
    exact CircuitState.noConfusion hd2
  | none =>
    by_cases hlen : (cleanupCircuits s).active_circuits.length
      < (cleanupCircuits s).max_circuits
    · cases ok with
      | true =>
        rw [getCircuit_create hscan hlen] at hg
        injection hg with hg1 hg2
        injection hg1 with hg1'
        rw [← hg1']
        intro hd
        have hd2 : CircuitState.fresh = CircuitState.dead := hd
        exact CircuitState.noConfusion hd2
      | false =>
        rw [getCircuit_none_nocreate hscan] at hg
        obtain ⟨x, xs, d, hact, hfc, hcd, _⟩ := recycleOldest_some hg
        have hmm : pickMin (recycleKey (cleanupCircuits s)) x xs
            ∈ (cleanupCircuits s).active_circuits := by
          rw [hact]
          exact pickMin_mem _ xs x
        intro hd
        rw [hcd] at hd
        have hd2 : d.state = CircuitState.dead := hd
        exact cleanup_active_not_dead hin _ hmm d hfc hd2
    · rw [getCircuit_none_full hscan hlen] at hg
      obtain ⟨x, xs, d, hact, hfc, hcd, _⟩ := recycleOldest_some hg
      have hmm : pickMin (recycleKey (cleanupCircuits s)) x xs
          ∈ (cleanupCircuits s).active_circuits := by
        rw [hact]
        exact pickMin_mem _ xs x
      intro hd
      rw [hcd] at hd
      have hd2 : d.state = CircuitState.dead := hd
      exact cleanup_active_not_dead hin _ hmm d hfc hd2

/-- Claim C1, witnessed on the first acquisition of the initial pool. -/
theorem claim_C1_witness :
    ({ id := 0, state := CircuitState.active, created_at := 1, request_count := 1, last_used := some 1 } : Circuit).state ≠ CircuitState.dead :=
  claim_C1 (Reachable.start 9050 10 600 1 (fun _ => true) (by decide))
    (by decide : getCircuit false true wStart = (some { id := 0, state := CircuitState.active, created_at := 1, request_count := 1, last_used := some 1 }, wAfter))

/-- Claim C2 counterexample: with circuitLifetimeSeconds configured to
300, a reachable circuit aged 399 seconds (older than the configured
lifetime) is still reported healthy by is_healthy, because the predicate
hard-codes 600 as its age limit and ignores the configuration. -/
theorem claim_C2_cex :
    Reachable c2Mgr ∧ findCircuit c2Mgr 0 = some c2Circ ∧
    c2Mgr.circuit_lifetime = 300 ∧
    c2Mgr.circuit_lifetime < c2Circ.age c2Mgr.clock ∧
    c2Circ.is_healthy c2Mgr.clock = true :=
  ⟨Reachable.step (Reachable.start 9050 10 300 1 (fun _ => true) (by decide))
    (Step.tick 399 w300), by decide, by decide, by decide, by decide⟩

/-- Claim C2 (amended): is_healthy ignores the configured limits and
tests the hard-coded bounds instead; it holds exactly when the circuit is
not dead, at most 600 seconds old, and has served at most 100 requests. -/
theorem claim_C2_amended (c : Circuit) (now : Nat) :
    c.is_healthy now = (decide (c.state ≠ CircuitState.dead)
      && decide (now - c.created_at ≤ 600) && decide (c.request_count ≤ 100)) := by
  unfold Circuit.is_healthy Circuit.age
  split_ifs with h1 h2 h3
  · simp [h1]
  · have hx : ¬ (now - c.created_at ≤ 600) := Nat.not_le_of_lt h2
    simp [hx]
  · have hx : ¬ (c.request_count ≤ 100) := Nat.not_le_of_lt h3
    simp [hx]
  · simp [h1, Nat.le_of_not_lt h2, Nat.le_of_not_lt h3]

theorem recycleOldest_some_id {t : TorManager} {c : Circuit} {t' : TorManager}
    (hr : recycleOldest t = (some c, t')) : c.id ∈ t.active_circuits := by
  obtain ⟨x, xs, d, hact, hfc, hcd, _⟩ := recycleOldest_some hr
  have hid : c.id = pickMin (recycleKey t) x xs := by
    rw [hcd]
    exact (lookupCircuit_some hfc).2
  rw [hid, hact]
  exact pickMin_mem _ xs x

/-- Claim C3: across every operation of a reachable pool, circuit states
only move forward along the order Fresh, Active, Degraded, Dead, and a
circuit that is Dead is never returned by get_circuit again. -/
theorem claim_C3 {s s' : TorManager} (h : Reachable s) (hst : Step s s') :
    (∀ (cid : Nat) (c c' : Circuit), findCircuit s cid = some c →
      findCircuit s' cid = some c' → c.state.rank ≤ c'.state.rank) ∧
    (∀ (cid : Nat) (c : Circuit), findCircuit s cid = some c →
      c.state = CircuitState.dead →
      ∀ (rf ok : Bool) (r : Circuit) (t : TorManager),
        getCircuit rf ok s = (some r, t) → r.id ≠ cid) := by
  have hin := reachable_inv h
  constructor
  · exact step_circuitsMono hin hst
  · intro cid c hc hdead rf ok r t hg hid
    subst hid
    have hc1 : findCircuit (cleanupCircuits s) r.id = some c := cleanup_dead_lookup hc hdead
    have hnotact : r.id ∉ (cleanupCircuits s).active_circuits := by
      intro hmem
      exact cleanup_active_not_dead hin _ hmem c hc1 hdead
    cases hscan : scanHealthy rf (cleanupCircuits s) with
    | some c0 =>
      rw [getCircuit_scan hscan] at hg
      injection hg with hg1 hg2
      injection hg1 with hg1'
      obtain ⟨hmem0, hfc0, _, _⟩ := scanHealthy_some hscan
      have hrid : r.id = c0.id := by rw [← hg1']
      rw [hrid] at hnotact
      exact hnotact hmem0
    | none =>
      by_cases hlen : (cleanupCircuits s).active_circuits.length
        < (cleanupCircuits s).max_circuits
      · cases ok with
        | true =>
          rw [getCircuit_create hscan hlen] at hg
          injection hg with hg1 hg2
          injection hg1 with hg1'
          have hrid : r.id = (cleanupCircuits s).next_id := by rw [← hg1']
          have hlt : r.id < s.next_id := by
            have := hin.idsLt c (lookupCircuit_some hc).1
            rw [(lookupCircuit_some hc).2] at this
            exact this
          have hnx : (cleanupCircuits s).next_id = s.next_id := rfl
          rw [hrid, hnx] at hlt
          exact Nat.lt_irrefl _ hlt
        | false =>
          rw [getCircuit_none_nocreate hscan] at hg
          exact hnotact (recycleOldest_some_id hg)
      · rw [getCircuit_none_full hscan hlen] at hg
        exact hnotact (recycleOldest_some_id hg)

/-- Claim C3, witnessed on a clock-advance step of the initial pool. -/
theorem claim_C3_witness :
    (∀ (cid : Nat) (c c' : Circuit), findCircuit wStart cid = some c →
      findCircuit (tickClock 5 wStart) cid = some c' → c.state.rank ≤ c'.state.rank) ∧
    (∀ (cid : Nat) (c : Circuit), findCircuit wStart cid = some c →
      c.state = CircuitState.dead →
      ∀ (rf ok : Bool) (r : Circuit) (t : TorManager),
        getCircuit rf ok wStart = (some r, t) → r.id ≠ cid) :=
  claim_C3 (Reachable.start 9050 10 600 1 (fun _ => true) (by decide))
    (Step.tick 5 wStart)

/-- Claim C4: in every reachable pool state the active list holds at most
max_circuits ids. -/
theorem claim_C4 {s : TorManager} (h : Reachable s) :
    s.active_circuits.length ≤ s.max_circuits :=
  (reachable_inv h).activeLen

/-- Claim C4, witnessed on the initial pool. -/
theorem claim_C4_witness : wStart.active_circuits.length ≤ wStart.max_circuits :=
  claim_C4 (Reachable.start 9050 10 600 1 (fun _ => true) (by decide))

theorem c5Empty_reachable : Reachable c5Empty :=
  (by decide : initCircuits (fun _ => false) (initManager 9050 10 600 1) = c5Empty) ▸
    Reachable.start 9050 10 600 1 (fun _ => false) (by decide)

/-- Claim C5 counterexample: on an exhausted reachable pool with failing
creation, get_circuit returns the None sentinel rather than raising any
error, and the error callers of get_http_session see is the generic
builtin RuntimeError, not a distinct NoAvailableCircuitError class. -/
theorem claim_C5_cex :
    Reachable c5Empty ∧
    getCircuit false false c5Empty = (none, c5Empty) ∧
    (getHttpSession none false "agent" c5Empty).1
      = Except.error (PyError.runtimeError "No available circuits") :=
  ⟨c5Empty_reachable, by decide, by decide⟩

/-- Claim C5 (amended): when the active list is empty after cleanup and
circuit creation fails, get_circuit returns None (no exception), and
get_http_session called without a circuit surfaces the condition as
RuntimeError with message No available circuits. -/
theorem claim_C5_amended {s : TorManager} (rf : Bool) (ua : String)
    (hempty : (cleanupCircuits s).active_circuits = []) :
    (getCircuit rf false s).1 = none ∧
    (getHttpSession none false ua s).1
      = Except.error (PyError.runtimeError "No available circuits") := by
  have hscan : scanHealthy rf (cleanupCircuits s) = none := by
    unfold scanHealthy
    rw [hempty]
    rfl
  constructor
  · rw [getCircuit_none_nocreate hscan, recycleOldest_nil hempty]
  · have hscan0 : scanHealthy false (cleanupCircuits s) = none := by
      unfold scanHealthy
      rw [hempty]
      rfl
    show (match getCircuit false false s with
      | (some c, s1) => sessionFor c ua s1
      | (none, s1) => (Except.error (PyError.runtimeError "No available circuits"), s1)).1 = _
    rw [getCircuit_none_nocreate hscan0, recycleOldest_nil hempty]

/-- Claim C5 amended, witnessed on the concrete exhausted pool. -/
theorem claim_C5_amended_witness :
    (getCircuit true false c5Empty).1 = none ∧
    (getHttpSession none false "agent2" c5Empty).1
      = Except.error (PyError.runtimeError "No available circuits") :=
  claim_C5_amended true "agent2" (by decide)

theorem wStart_reachable : Reachable wStart :=
  Reachable.start 9050 10 600 1 (fun _ => true) (by decide)

theorem c7S3_reachable : Reachable c7S3 :=
  Reachable.step (Reachable.step wStart_reachable (Step.acquire false true wStart))
    (Step.session (some c7CircA) true "agentA" wAfter)

theorem c7S4_reachable : Reachable c7S4 :=
  Reachable.step c7S3_reachable (Step.markDead 0 c7S3)

theorem fold_create_cache (oks : Nat → Bool) :
    ∀ (idxs : List Nat) (s : TorManager),
      (idxs.foldl (fun st i => (createCircuit (oks i) st).2) s).session_cache
        = s.session_cache := by
  intro idxs
  induction idxs with
  | nil => intro s; rfl
  | cons i t ih =>
    intro s
    simp only [List.foldl_cons]
    rw [ih]
    cases hoi : oks i with
    | true => rfl
    | false => rfl

/-- Claim C6: after rotate_all_circuits on a reachable pool, assuming the
control channel creates circuits successfully, the session cache is empty
(so every previously cached session is gone), every previously known
circuit is registered as Dead, and the stats report min(3, maxCircuits)
active circuits. -/
theorem claim_C6 {s : TorManager} (h : Reachable s) (oks : Nat → Bool)
    (hoks : ∀ i, oks i = true) :
    (rotateAllCircuits oks s).session_cache = [] ∧
    (∀ p ∈ s.session_cache, p ∉ (rotateAllCircuits oks s).session_cache) ∧
    (∀ c ∈ s.circuits, ∃ c', findCircuit (rotateAllCircuits oks s) c.id = some c' ∧
        c'.state = CircuitState.dead) ∧
    (getStats (rotateAllCircuits oks s)).active_circuits = min 3 s.max_circuits := by
  have hin := reachable_inv h
  set sm : TorManager := (s.circuits.map (fun c => c.id)).foldl
    (fun st cid => markCircuitDead cid st) s with hsm
  set sc : TorManager := { sm with session_cache := [] } with hsc
  have hrot : rotateAllCircuits oks s = initCircuits oks sc := rfl
  have hcache : (initCircuits oks sc).session_cache = [] := by
    show ((List.range (min 3 sc.max_circuits)).foldl
      (fun st i => (createCircuit (oks i) st).2) sc).session_cache = []
    rw [fold_create_cache]
  refine ⟨by rw [hrot]; exact hcache, ?_, ?_, ?_⟩
  · intro p hp
    rw [hrot, hcache]
    simp
  · intro c hcm
    have hdeadall : ∀ c' ∈ sm.circuits, c'.state = CircuitState.dead := by
      refine fold_mark_dead _ s ?_
      intro c0 hc0
      exact Or.inl (List.mem_map.mpr ⟨c0, hc0, rfl⟩)
    have hids : sm.circuits.map (fun c0 => c0.id) = s.circuits.map (fun c0 => c0.id) :=
      fold_mark_ids _ s
    have hcid : c.id ∈ sm.circuits.map (fun c0 => c0.id) := by
      rw [hids]
      exact List.mem_map.mpr ⟨c, hcm, rfl⟩
    obtain ⟨cm, hcmm, hcmid⟩ := List.mem_map.mp hcid
    obtain ⟨tl, htl⟩ := fold_create_circuits oks (List.range (min 3 sc.max_circuits)) sc
    rw [hrot]
    have hl1 : (lookupCircuit sm.circuits c.id).isSome = true := by
      rw [← hcmid]
      exact lookupCircuit_isSome_of_mem hcmm
    cases hl : lookupCircuit sm.circuits c.id with
    | none =>
      rw [hl] at hl1
      cases hl1
    | some cdead =>
      refine ⟨cdead, ?_, hdeadall cdead (lookupCircuit_some hl).1⟩
      show lookupCircuit (initCircuits oks sc).circuits c.id = some cdead
      rw [show (initCircuits oks sc).circuits = sc.circuits ++ tl from htl,
        lookupCircuit_append,
        show lookupCircuit sc.circuits c.id = some cdead from hl,
        Option.or_some]
  · rw [hrot]
    show (initCircuits oks sc).active_circuits.length = min 3 s.max_circuits
    rw [initCircuits_length_true sc oks hoks]
    have hnil : sm.active_circuits = [] := by
      refine fold_mark_active_nil _ hin ?_
      intro cid hcid
      obtain ⟨c0, hc0⟩ := hin.activeSub cid hcid
      obtain ⟨hc0m, hc0id⟩ := lookupCircuit_some hc0
      exact List.mem_map.mpr ⟨c0, hc0m, hc0id⟩
    have hscact : sc.active_circuits = [] := hnil
    have hscmax : sc.max_circuits = s.max_circuits := fold_mark_max _ s
    rw [hscact, hscmax]
    simp

/-- Claim C6, witnessed on the concrete reachable pool with one session
cached and all creations succeeding. -/
theorem claim_C6_witness :
    (rotateAllCircuits (fun _ => true) c7S3).session_cache = [] ∧
    (∀ p ∈ c7S3.session_cache, p ∉ (rotateAllCircuits (fun _ => true) c7S3).session_cache) ∧
    (∀ c ∈ c7S3.circuits, ∃ c', findCircuit (rotateAllCircuits (fun _ => true) c7S3) c.id = some c' ∧
        c'.state = CircuitState.dead) ∧
    (getStats (rotateAllCircuits (fun _ => true) c7S3)).active_circuits = min 3 c7S3.max_circuits :=
  claim_C6 c7S3_reachable (fun _ => true) (fun _ => rfl)

/-- Claim C7 counterexample: after mark_circuit_dead on the bound
circuit, the cached session binding is not invalidated; the next
get_http_session lookup for that circuit returns the stale cached session
(still carrying user agent agentA, not the fresh draw agentB) and leaves
it in the cache. -/
theorem claim_C7_cex :
    Reachable c7S4 ∧
    findCircuit c7S4 0 = some c7Dead ∧
    sessionLookup c7S4.session_cache 0 = some c7Sess ∧
    getHttpSession (some c7CircA) true "agentB" c7S4 = (Except.ok c7Sess, c7S4) ∧
    c7Sess.user_agent = "agentA" :=
  ⟨c7S4_reachable, by decide, by decide, by decide, by decide⟩

/-- Claim C7 (amended): mark_circuit_dead never touches the session
cache, and a cached session for a circuit id is returned unchanged by the
next get_http_session call for that circuit, dead or not; session
bindings are only dropped in bulk by rotate_all_circuits and stop. -/
theorem claim_C7_amended {s : TorManager} (cid : Nat) (c : Circuit)
    (sess : Session) (ok : Bool) (ua : String)
    (hsess : sessionLookup s.session_cache c.id = some sess) :
    (markCircuitDead cid s).session_cache = s.session_cache ∧
    getHttpSession (some c) ok ua s = (Except.ok sess, s) := by
  refine ⟨markCircuitDead_cache cid s, ?_⟩
  show sessionFor c ua s = _
  unfold sessionFor
  rw [hsess]

/-- Claim C7 amended, witnessed on the concrete pool with a dead bound
circuit. -/
theorem claim_C7_amended_witness :
    (markCircuitDead 0 c7S4).session_cache = c7S4.session_cache ∧
    getHttpSession (some c7CircA) true "agentB" c7S4 = (Except.ok c7Sess, c7S4) :=
  claim_C7_amended 0 c7CircA c7Sess true "agentB" (by decide)

/-- Claim C8 counterexample: the new-creation path of get_circuit returns
a circuit that is still Fresh with request_count 1, and stores it that
way, so Fresh does not mean never allocated and a returned circuit does
not always leave Fresh on first selection. -/
theorem claim_C8_cex :
    Reachable c5Empty ∧
    getCircuit false true c5Empty = (some c8C, c8S') ∧
    c8C.state = CircuitState.fresh ∧ c8C.request_count = 1 ∧
    Reachable c8S' ∧ findCircuit c8S' c8C.id = some c8C :=
  ⟨c5Empty_reachable, by decide, by decide, by decide,
    Reachable.step c5Empty_reachable (Step.acquire false true c5Empty), by decide⟩

/-- Claim C8 (amended): only the healthy-scan path moves the returned
circuit to Active; the new-creation path returns a circuit still in Fresh
state with request_count 1, and the recycle path returns the selected
circuit with its state unchanged and request_count incremented. -/
theorem claim_C8_amended {s s' : TorManager} {rf ok : Bool} {c : Circuit}
    (hg : getCircuit rf ok s = (some c, s')) :
    (∀ c0, scanHealthy rf (cleanupCircuits s) = some c0 →
      c.state = CircuitState.active) ∧
    (scanHealthy rf (cleanupCircuits s) = none →
      (cleanupCircuits s).active_circuits.length < (cleanupCircuits s).max_circuits →
      ok = true → c.state = CircuitState.fresh ∧ c.request_count = 1) ∧
    (scanHealthy rf (cleanupCircuits s) = none →
      ¬((cleanupCircuits s).active_circuits.length < (cleanupCircuits s).max_circuits ∧ ok = true) →
      ∃ d, findCircuit (cleanupCircuits s) c.id = some d ∧
        c.state = d.state ∧ c.request_count = d.request_count + 1) := by
  refine ⟨?_, ?_, ?_⟩
  · intro c0 hscan
    rw [getCircuit_scan hscan] at hg
    injection hg with h1 _
    injection h1 with h1'
    rw [← h1']
  · intro hscan hlen hok
    subst hok
    rw [getCircuit_create hscan hlen] at hg
    injection hg with h1 _
    injection h1 with h1'
    rw [← h1']
    exact ⟨rfl, rfl⟩
  · intro hscan hnc
    have hrec : getCircuit rf ok s = recycleOldest (cleanupCircuits s) := by
      cases ok with
      | true =>
        have hlen : ¬ (cleanupCircuits s).active_circuits.length
            < (cleanupCircuits s).max_circuits := by
          intro hl
          exact hnc ⟨hl, rfl⟩
        exact getCircuit_none_full hscan hlen
      | false => exact getCircuit_none_nocreate hscan
    rw [hrec] at hg
    obtain ⟨x, xs, d, hact, hfc, hcd, _⟩ := recycleOldest_some hg
    refine ⟨d, ?_, ?_, ?_⟩
    · have hdid : d.id = pickMin (recycleKey (cleanupCircuits s)) x xs :=
        (lookupCircuit_some hfc).2
      have hcid : c.id = d.id := by rw [hcd]
      rw [hcid, hdid]
      exact hfc
    · rw [hcd]
    · rw [hcd]

/-- Claim C8 amended, witnessed on the creation path of the empty pool. -/
theorem claim_C8_amended_witness :
    (∀ c0, scanHealthy false (cleanupCircuits c5Empty) = some c0 →
      c8C.state = CircuitState.active) ∧
    (scanHealthy false (cleanupCircuits c5Empty) = none →
      (cleanupCircuits c5Empty).active_circuits.length < (cleanupCircuits c5Empty).max_circuits →
      true = true → c8C.state = CircuitState.fresh ∧ c8C.request_count = 1) ∧
    (scanHealthy false (cleanupCircuits c5Empty) = none →
      ¬((cleanupCircuits c5Empty).active_circuits.length < (cleanupCircuits c5Empty).max_circuits ∧ true = true) →
      ∃ d, findCircuit (cleanupCircuits c5Empty) c8C.id = some d ∧
        c8C.state = d.state ∧ c8C.request_count = d.request_count + 1) :=
  claim_C8_amended (by decide : getCircuit false true c5Empty = (some c8C, c8S'))

theorem recycleKey_eq {s : TorManager} {cid : Nat} {c : Circuit}
    (h : findCircuit s cid = some c) : recycleKey s cid = c.last_used.getD 0 := by
  unfold recycleKey
  rw [h]

theorem key_le_lastUsedLE {a b : Option Nat}
    (hpa : ∀ t, a = some t → 0 < t) (h : a.getD 0 ≤ b.getD 0) :
    lastUsedLE a b := by
  cases a with
  | none => trivial
  | some x =>
    cases b with
    | none =>
      have hx := hpa x rfl
      have h' : x ≤ 0 := h
      exact absurd h' (Nat.not_le_of_lt hx)
    | some y => exact h

theorem lastUsedLE_both_key {a b : Option Nat}
    (h1 : lastUsedLE a b) (h2 : lastUsedLE b a) : a.getD 0 = b.getD 0 := by
  cases a with
  | none =>
    cases b with
    | none => rfl
    | some y => exact h2.elim
  | some x =>
    cases b with
    | none => exact h1.elim
    | some y => exact Nat.le_antisymm h1 h2

/-- Claim C9: when get_circuit falls back to recycling on a reachable,
saturated pool with no healthy circuit, it picks the active circuit that
is least recently used (absent last_used counting as oldest), breaking
ties by earliest created_at, and returns it with request_count bumped and
last_used set to now. -/
theorem claim_C9 {s : TorManager} (h : Reachable s) (rf ok : Bool)
    (hscan : scanHealthy rf (cleanupCircuits s) = none)
    (hfull : (cleanupCircuits s).max_circuits ≤ (cleanupCircuits s).active_circuits.length)
    (hne : (cleanupCircuits s).active_circuits ≠ []) :
    ∃ d c', getCircuit rf ok s = (some c', updateCircuit (cleanupCircuits s) d.id (fun _ => c')) ∧
      findCircuit (cleanupCircuits s) d.id = some d ∧
      d.id ∈ (cleanupCircuits s).active_circuits ∧
      c' = { d with request_count := d.request_count + 1, last_used := some (cleanupCircuits s).clock } ∧
      (∀ cid ∈ (cleanupCircuits s).active_circuits, ∀ e,
        findCircuit (cleanupCircuits s) cid = some e →
          lastUsedLE d.last_used e.last_used ∧
          (lastUsedLE e.last_used d.last_used → d.created_at ≤ e.created_at)) := by
  have hin := inv_cleanup (reachable_inv h)
  have hnl : ¬ (cleanupCircuits s).active_circuits.length
      < (cleanupCircuits s).max_circuits := Nat.not_lt.mpr hfull
  have hg : getCircuit rf ok s = recycleOldest (cleanupCircuits s) :=
    getCircuit_none_full hscan hnl
  obtain ⟨x, xs, hact⟩ := List.exists_cons_of_ne_nil hne
  have hmm : pickMin (recycleKey (cleanupCircuits s)) x xs
      ∈ (cleanupCircuits s).active_circuits := by
    rw [hact]
    exact pickMin_mem _ xs x
  obtain ⟨d, hfc⟩ := hin.activeSub _ hmm
  have hdid : d.id = pickMin (recycleKey (cleanupCircuits s)) x xs :=
    (lookupCircuit_some hfc).2
  have hdm : d ∈ (cleanupCircuits s).circuits := (lookupCircuit_some hfc).1
  have hr := recycleOldest_cons hact hfc
  refine ⟨d, { d with request_count := d.request_count + 1, last_used := some (cleanupCircuits s).clock }, ?_, ?_, ?_, rfl, ?_⟩
  · rw [hg, hr, hdid]
  · rw [hdid]
    exact hfc
  · rw [hdid]
    exact hmm
  · intro cid hcidm e hfe
    have hem : e ∈ (cleanupCircuits s).circuits := (lookupCircuit_some hfe).1
    have heid : e.id = cid := (lookupCircuit_some hfe).2
    have hcim : cid ∈ x :: xs := by
      rw [← hact]
      exact hcidm
    have hle := pickMin_le (recycleKey (cleanupCircuits s)) xs x cid hcim
    rw [recycleKey_eq hfc, recycleKey_eq hfe] at hle
    have h1 : lastUsedLE d.last_used e.last_used :=
      key_le_lastUsedLE (fun t ht => hin.lastUsedPos d hdm t ht) hle
    refine ⟨h1, ?_⟩
    intro h2
    have hkey : e.last_used.getD 0 = d.last_used.getD 0 := lastUsedLE_both_key h2 h1
    have hsort : (x :: xs).Pairwise (· < ·) := by
      rw [← hact]
      exact hin.activeSorted
    have hkeq : recycleKey (cleanupCircuits s) cid
        = recycleKey (cleanupCircuits s) (pickMin (recycleKey (cleanupCircuits s)) x xs) := by
      rw [recycleKey_eq hfe, recycleKey_eq hfc]
      exact hkey
    have hfirst := pickMin_first (recycleKey (cleanupCircuits s)) xs x hsort cid hcim hkeq
    rw [← hdid] at hfirst
    rw [← heid] at hfirst
    exact hin.idCreated d hdm e hem hfirst

theorem w1a_reachable : Reachable w1a :=
  Reachable.step (Reachable.start 9050 1 600 1 (fun _ => true) (by decide))
    (Step.acquire false true w1)

/-- Claim C9, witnessed on the saturated single-circuit pool with
require_fresh set. -/
theorem claim_C9_witness :
    ∃ d c', getCircuit true true w1a = (some c', updateCircuit (cleanupCircuits w1a) d.id (fun _ => c')) ∧
      findCircuit (cleanupCircuits w1a) d.id = some d ∧
      d.id ∈ (cleanupCircuits w1a).active_circuits ∧
      c' = { d with request_count := d.request_count + 1, last_used := some (cleanupCircuits w1a).clock } ∧
      (∀ cid ∈ (cleanupCircuits w1a).active_circuits, ∀ e,
        findCircuit (cleanupCircuits w1a) cid = some e →
          lastUsedLE d.last_used e.last_used ∧
          (lastUsedLE e.last_used d.last_used → d.created_at ≤ e.created_at)) :=
  claim_C9 w1a_reachable true true (by decide) (by decide) (by decide)

/-- Claim C10: require_fresh only filters the healthy scan; on the
reachable saturated pool whose only circuit is already used,
get_circuit with require_fresh still succeeds through the recycle path
and returns a circuit with request_count 2, a previously used circuit. -/
theorem claim_C10 :
    Reachable w1a ∧
    ∃ c s', getCircuit true true w1a = (some c, s') ∧ 2 ≤ c.request_count :=
  ⟨w1a_reachable,
    { id := 0, state := CircuitState.active, created_at := 1, request_count := 2, last_used := some 1 },
    (getCircuit true true w1a).2, by decide, by decide⟩

end DarkWebScout
